import Mathlib

/-!
# HggDM event selection: a shallow embedding of `DMEvtSelect.cxx`

The class `DMEvtSelect` implements the cuts and the categorisation of the
H->gg + DM analysis together with its event counters.  This file embeds the
class as pure functions on an explicit selector state and proves (or refutes)
properties of its cut-flow accounting.

Modelling conventions

* `std::map<TString,V>` is a partial function `String → Option V`; `find(k) ==
  end()` is `m k = none`, and `operator[]` inserts a value-initialised entry
  when the key is absent.
* C++ `double` values (event fields and weights) are exact rationals: rounding,
  NaN and infinities are outside the model.
* C++ `int` counters are integers kept in the 32-bit range: the increment `++`
  takes the two's complement result (`wrapInt`) where the source overflows.
* `std::cout` is a list of output tokens kept in the selector state.
* The event record read through `evtTree` (`EventInfoAuxDyn.*`) is passed to
  every operation as an explicit argument.
-/

namespace HggDM

/-! ## Maps -/

/-- A `std::map<TString,V>`: `none` means that the key has no entry. -/
abbrev TMap (V : Type) := String → Option V

namespace TMap

/-- The map after `clear()`. -/
def empty {V : Type} : TMap V := fun _ => none

/-- Whether `find(k) != end()`. -/
def found {V : Type} (m : TMap V) (k : String) : Bool := (m k).isSome

/-- The value denoted by `m[k]`: the stored value, or the value-initialised
default when the key is absent. -/
def val {V : Type} [Zero V] (m : TMap V) (k : String) : V := (m k).getD 0

/-- The map after `m[k] = v`. -/
def set {V : Type} (m : TMap V) (k : String) (v : V) : TMap V :=
  fun j => if j = k then some v else m j

/-- The map after a read access `m[k]`, which inserts the default when the key
is absent. -/
def touch {V : Type} [Zero V] (m : TMap V) (k : String) : TMap V :=
  m.set k (m.val k)

/-- The map after `m[k] += d` (and `m[k]++` for `d = 1`). -/
def add {V : Type} [Zero V] [Add V] (m : TMap V) (k : String) (d : V) : TMap V :=
  m.set k (m.val k + d)

end TMap

/-- The value of a C++ `int` (32 bits, two's complement) that holds the integer
`x` after an arithmetic step: `x` itself when it is in the range
`[-2^31, 2^31)`, and the wrapped value otherwise.  (Signed overflow is undefined
in C++; the model takes the result of two's complement hardware.) -/
def wrapInt (x : Int) : Int :=
  (x + 2147483648) % 4294967296 - 2147483648

/-- The map of `int` counters after `m[k]++`. -/
def TMap.incr (m : TMap Int) (k : String) : TMap Int :=
  m.set k (wrapInt (m.val k + 1))

/-! ## Strings -/

/-- The method `TString::Contains(pat)`: `pat` occurs in `s` as a contiguous substring. -/
def Contains (s pat : String) : Bool :=
  s.data.tails.any (fun t => pat.data.isPrefixOf t)

/-- The key `Form("%s_%d", name, n)`. -/
def Form (name : String) (n : Int) : String :=
  name ++ "_" ++ toString n

/-- The key `Form("%s_0", name)`. -/
def Form0 (name : String) : String :=
  name ++ "_0"

/-! ## Output and events -/

/-- One item streamed to `std::cout` or to an output file. -/
inductive Tok where
  | str (s : String)
  | int (i : Int)
  | dbl (q : ℚ)
  | endl
  deriving DecidableEq, Repr

/-- Modelled from the spec: the event record `EventInfoAuxDyn` read through the
`DMTree` pointer `evtTree`; its declaration (DMTree.h) is missing, the fields
are the ones `DMEvtSelect.cxx` reads. -/
structure EventInfoAuxDyn where
  y1_pt : ℚ
  y2_pt : ℚ
  m_yy : ℚ
  y1_eta : ℚ
  y2_eta : ℚ
  pt_yy : ℚ
  metref_final : ℚ
  deriving DecidableEq, Repr

/-- The comparison `a / b > c` on doubles.  For a zero divisor IEEE division
gives `+inf` when `a > 0` (which exceeds every finite `c`) and NaN or `-inf`
otherwise (for which the comparison is false). -/
def ratioGt (a b c : ℚ) : Bool :=
  if b = 0 then decide (0 < a) else decide (c < a / b)

/-! ## The comparisons of the cuts -/

/-- Cut on photon transverse momenta / diphoton mass:
`y1_pt/m_yy > 0.35 && y2_pt/m_yy > 0.25`. -/
def photonPtCut (ev : EventInfoAuxDyn) : Bool :=
  ratioGt ev.y1_pt ev.m_yy (35 / 100) && ratioGt ev.y2_pt ev.m_yy (25 / 100)

/-- Cut on the photon pseudorapidities: `y1_eta < 2.5 && y2_eta < 2.5`. -/
def photonEtaCut (ev : EventInfoAuxDyn) : Bool :=
  decide (ev.y1_eta < 25 / 10) && decide (ev.y2_eta < 25 / 10)

/-- Cut on the diphoton invariant mass: `m_yy > 105.0 && m_yy < 160.0`. -/
def diphotonMassCut (ev : EventInfoAuxDyn) : Bool :=
  decide (105 < ev.m_yy) && decide (ev.m_yy < 160)

/-- Cut on the diphoton transverse momentum: `pt_yy > 120.0`. -/
def diphotonPtCut (ev : EventInfoAuxDyn) : Bool :=
  decide (120 < ev.pt_yy)

/-- Cut on the event missing transverse energy: `metref_final > 120.0`. -/
def diphotonETMissCut (ev : EventInfoAuxDyn) : Bool :=
  decide (120 < ev.metref_final)

/-! ## The selector state -/

/-- Modelled from the spec: the data members of class `DMEvtSelect`; the header
DMEvtSelect.h is missing, so there is one field for each distinct member name
used in `DMEvtSelect.cxx` (`evtCountTot`/`evtCountTotWt` and
`evtCountTotal`/`evtCountTotalWt` are different identifiers there).  The field
`cout` collects what the selector streams to `std::cout`. -/
structure DMEvtSelect where
  cutList : List String
  cateNamesAndSizes : List (String × Int)
  recursiveCall : Bool
  evtCountPass : TMap Int
  evtCountPassWt : TMap ℚ
  evtCountTot : TMap Int
  evtCountTotWt : TMap ℚ
  evtCountTotal : TMap Int
  evtCountTotalWt : TMap ℚ
  cateCount : TMap Int
  cateCountWt : TMap ℚ
  cout : List Tok

namespace DMEvtSelect

/-- Streaming `toks` to `std::cout`. -/
def print (s : DMEvtSelect) (toks : List Tok) : DMEvtSelect :=
  { s with cout := s.cout ++ toks }

/-- The method `DMEvtSelect::cutExists`. -/
def cutExists (s : DMEvtSelect) (cutName : String) : Bool × DMEvtSelect :=
  let ex : Bool := !(s.evtCountTot.found cutName)
  if !ex then (ex, s.print [Tok.str "DMEvtSelect: Cut not defined!", Tok.endl])
  else (ex, s)

/-- The method `DMEvtSelect::cateExists`. -/
def cateExists (s : DMEvtSelect) (cateName : String) : Bool × DMEvtSelect :=
  let ex : Bool := !(s.cateCount.found (Form0 cateName))
  if !ex then (ex, s.print [Tok.str "DMEvtSelect: Category not defined!", Tok.endl])
  else (ex, s)

/-- The method `DMEvtSelect::getPassingEvents`. -/
def getPassingEvents (s : DMEvtSelect) (cutName : String) : Int × DMEvtSelect :=
  let r := s.cutExists cutName
  if r.1 then
    (r.2.evtCountPass.val cutName, { r.2 with evtCountPass := r.2.evtCountPass.touch cutName })
  else (0, r.2)

/-- The method `DMEvtSelect::getPassingEventsWt`. -/
def getPassingEventsWt (s : DMEvtSelect) (cutName : String) : ℚ × DMEvtSelect :=
  let r := s.cutExists cutName
  if r.1 then
    (r.2.evtCountPassWt.val cutName,
      { r.2 with evtCountPassWt := r.2.evtCountPassWt.touch cutName })
  else (0, r.2)

/-- The method `DMEvtSelect::getTotalEvents`. -/
def getTotalEvents (s : DMEvtSelect) (cutName : String) : Int × DMEvtSelect :=
  let r := s.cutExists cutName
  if r.1 then
    (r.2.evtCountTot.val cutName, { r.2 with evtCountTot := r.2.evtCountTot.touch cutName })
  else (0, r.2)

/-- The method `DMEvtSelect::getTotalEventsWt`. -/
def getTotalEventsWt (s : DMEvtSelect) (cutName : String) : ℚ × DMEvtSelect :=
  let r := s.cutExists cutName
  if r.1 then
    (r.2.evtCountTotWt.val cutName,
      { r.2 with evtCountTotWt := r.2.evtCountTotWt.touch cutName })
  else (0, r.2)

/-- The method `DMEvtSelect::getEventsPerCate`. -/
def getEventsPerCate (s : DMEvtSelect) (cateName : String) (cate : Int) : Int × DMEvtSelect :=
  let r := s.cateExists cateName
  if r.1 then
    (r.2.cateCount.val (Form cateName cate),
      { r.2 with cateCount := r.2.cateCount.touch (Form cateName cate) })
  else (0, r.2)

/-- The method `DMEvtSelect::getEventsPerCateWt`. -/
def getEventsPerCateWt (s : DMEvtSelect) (cateName : String) (cate : Int) : ℚ × DMEvtSelect :=
  let r := s.cateExists cateName
  if r.1 then
    (r.2.cateCountWt.val (Form cateName cate),
      { r.2 with cateCountWt := r.2.cateCountWt.touch (Form cateName cate) })
  else (0, r.2)

/-! ### Resetting and construction -/

/-- One pass of the first loop of `clearCounters`, for the cut `c = cutList[i]`. -/
def clearCutStep (s : DMEvtSelect) (c : String) : DMEvtSelect :=
  { s with
    evtCountPass := s.evtCountPass.set c 0
    evtCountPassWt := s.evtCountPassWt.set c 0
    evtCountTot := s.evtCountTot.set c 0
    evtCountTotalWt := s.evtCountTotalWt.set c 0 }

/-- One pass of the inner loop of `clearCounters` for the scheme `it`; the key is
built from `it.second`, as in the source, and not from the loop index. -/
def clearCateStep (it : String × Int) (s : DMEvtSelect) : DMEvtSelect :=
  { s with
    cateCount := s.cateCount.set (Form it.1 it.2) 0
    cateCountWt := s.cateCountWt.set (Form it.1 it.2) 0 }

/-- The inner loop `for (int j = 0; j < it.second; j++)` of `clearCounters`. -/
def clearCateLoop (s : DMEvtSelect) (it : String × Int) : DMEvtSelect :=
  (List.range it.2.toNat).foldl (fun t _ => clearCateStep it t) s

/-- The six `clear()` calls at the start of `clearCounters`. -/
def clearMaps (s : DMEvtSelect) : DMEvtSelect :=
  { s with
    evtCountPass := TMap.empty
    evtCountPassWt := TMap.empty
    evtCountTot := TMap.empty
    evtCountTotWt := TMap.empty
    cateCount := TMap.empty
    cateCountWt := TMap.empty }

/-- The method `DMEvtSelect::clearCounters`. -/
def clearCounters (s : DMEvtSelect) : DMEvtSelect :=
  let s1 := s.clearMaps
  let s2 := s1.cutList.foldl clearCutStep s1
  s2.cateNamesAndSizes.foldl clearCateLoop s2

/-- The registered cut names, in the order of the constructor. -/
def registeredCuts : List String :=
  ["photonPt", "photonEta", "diphotonMass", "diphotonPt", "diphotonETMiss", "allCuts"]

/-- The registered categorisation schemes with their sizes, in the iteration
order of the `std::map` (sorted by name). -/
def registeredCates : List (String × Int) :=
  [("inclusive", 1), ("splitETMiss", 2)]

/-- The members before the constructor body runs: all containers are empty. -/
def blank : DMEvtSelect :=
  { cutList := []
    cateNamesAndSizes := []
    recursiveCall := false
    evtCountPass := TMap.empty
    evtCountPassWt := TMap.empty
    evtCountTot := TMap.empty
    evtCountTotWt := TMap.empty
    evtCountTotal := TMap.empty
    evtCountTotalWt := TMap.empty
    cateCount := TMap.empty
    cateCountWt := TMap.empty
    cout := [] }

/-- The constructor `DMEvtSelect::DMEvtSelect(DMTree*)`. -/
def new : DMEvtSelect :=
  let s0 : DMEvtSelect :=
    { blank with
      cutList := registeredCuts
      cateNamesAndSizes := registeredCates
      recursiveCall := false }
  (clearCounters s0).print [Tok.str "DMEvtSelect: Successfully initialized!", Tok.endl]

/-! ### Categorisation -/

/-- The method `DMEvtSelect::getCategoryNumber(cateName, weight)` on the event
`ev`: the selector afterwards, with the value of `currCate` at the final
statement `return currCate;` (-1 and 0 for the two early returns).  The source
has one closing brace for the two blocks open at that statement (the `if
(currCate == -1) {` and the function body).  This definition follows the layout,
in which the `if` ends after the message and `currCate` is returned in every
case; `getCategoryNumberAsWritten` follows the braces as they stand, in which the
`return` belongs to the `if`.  The counter updates are the same in both. -/
def getCategoryNumber (s : DMEvtSelect) (ev : EventInfoAuxDyn) (cateName : String)
    (weight : ℚ) : Int × DMEvtSelect :=
  let r := s.cateExists cateName
  if !r.1 then (-1, r.2)
  else if Contains cateName "inclusive" then (0, r.2)
  else
    let currCate : Int :=
      if Contains cateName "splitETMiss" then
        (if decide (180 < ev.metref_final) then 0 else 1)
      else -1
    let s2 : DMEvtSelect :=
      { r.2 with
        cateCount := r.2.cateCount.incr (Form cateName currCate)
        cateCountWt := r.2.cateCountWt.add (Form cateName currCate) weight }
    let s3 : DMEvtSelect :=
      if currCate = -1 then
        s2.print [Tok.str "DMEvtSelect: Error! category not defined!", Tok.endl]
      else s2
    (currCate, s3)

/-- The method `DMEvtSelect::getCategoryNumber(cateName, weight)` on the event
`ev` with the braces as they stand in the source: the one closing brace after
`return currCate;` closes the block of `if (currCate == -1) {`, so the `return`
is executed for the bad category only, and for every other category control
reaches the end of the `int` function without a `return` (the value is `none`).
-/
def getCategoryNumberAsWritten (s : DMEvtSelect) (ev : EventInfoAuxDyn) (cateName : String)
    (weight : ℚ) : Option Int × DMEvtSelect :=
  let r := s.cateExists cateName
  if !r.1 then (some (-1), r.2)
  else if Contains cateName "inclusive" then (some 0, r.2)
  else
    let currCate : Int :=
      if Contains cateName "splitETMiss" then
        (if decide (180 < ev.metref_final) then 0 else 1)
      else -1
    let s2 : DMEvtSelect :=
      { r.2 with
        cateCount := r.2.cateCount.incr (Form cateName currCate)
        cateCountWt := r.2.cateCountWt.add (Form cateName currCate) weight }
    if currCate = -1 then
      (some currCate, s2.print [Tok.str "DMEvtSelect: Error! category not defined!", Tok.endl])
    else (none, s2)

/-- The one-argument overload `getCategoryNumber(cateName)`: weight 1.0. -/
def getCategoryNumber1 (s : DMEvtSelect) (ev : EventInfoAuxDyn) (cateName : String) :
    Int × DMEvtSelect :=
  s.getCategoryNumber ev cateName 1

/-! ### Cuts -/

/-- How a call of `passesCut` ends: it returns a value in a new state, control
flows off the end of the function without a `return` (undefined behaviour), or
the evaluation budget of the model is exhausted. -/
inductive Outcome where
  | ret (passes : Bool) (s : DMEvtSelect)
  | undef
  | outOfFuel

/-- The loop of the aggregate branch of `passesCut`: `call` is the nested call
`passesCut(cutList[i])`, `passes` the local variable. -/
def allCutsLoop (call : DMEvtSelect → String → Outcome) :
    List String → DMEvtSelect → Bool → Outcome
  | [], s, passes => Outcome.ret passes s
  | c :: rest, s, passes =>
    if Contains c "all" then allCutsLoop call rest s passes
    else
      match call s c with
      | Outcome.ret b t => allCutsLoop call rest t (if !b then false else passes)
      | Outcome.undef => Outcome.undef
      | Outcome.outOfFuel => Outcome.outOfFuel

/-- The aggregate branch of `passesCut`: the flag is set, the loop runs, the
flag is cleared. -/
def allCutsBranch (call : DMEvtSelect → String → Outcome) (s : DMEvtSelect) : Outcome :=
  match allCutsLoop call s.cutList { s with recursiveCall := true } true with
  | Outcome.ret p t => Outcome.ret p { t with recursiveCall := false }
  | Outcome.undef => Outcome.undef
  | Outcome.outOfFuel => Outcome.outOfFuel

/-- The counter updates of the counting step of `passesCut`. -/
def countEvent (s : DMEvtSelect) (cutName : String) (weight : ℚ) (passes : Bool) :
    DMEvtSelect :=
  let s1 : DMEvtSelect :=
    { s with
      evtCountTot := s.evtCountTot.incr cutName
      evtCountTotWt := s.evtCountTotWt.add cutName weight }
  if passes then
    { s1 with
      evtCountPass := s1.evtCountPass.incr cutName
      evtCountPassWt := s1.evtCountPassWt.add cutName weight }
  else s1

/-- The end of `passesCut`, after the predicate has been evaluated: when
`recursiveCall` is clear the counters are updated and `passes` is returned, and
when it is set control reaches the closing brace without a `return`. -/
def countStep (cutName : String) (weight : ℚ) : Outcome → Outcome
  | Outcome.ret passes t =>
    if !t.recursiveCall then Outcome.ret passes (countEvent t cutName weight passes)
    else Outcome.undef
  | Outcome.undef => Outcome.undef
  | Outcome.outOfFuel => Outcome.outOfFuel

/-- The body of `DMEvtSelect::passesCut(cutName, weight)` on the event `ev`,
with `call` standing for the nested call `passesCut(cutList[i])`. -/
def passesCutBody (call : DMEvtSelect → String → Outcome) (s : DMEvtSelect)
    (ev : EventInfoAuxDyn) (cutName : String) (weight : ℚ) : Outcome :=
  let r := s.cutExists cutName
  if !r.1 then Outcome.ret false r.2
  else
    countStep cutName weight
      (if Contains cutName "photonPt" then Outcome.ret (photonPtCut ev) r.2
      else if Contains cutName "photonEta" then Outcome.ret (photonEtaCut ev) r.2
      else if Contains cutName "diphotonMass" then Outcome.ret (diphotonMassCut ev) r.2
      else if Contains cutName "diphotonPt" then Outcome.ret (diphotonPtCut ev) r.2
      else if Contains cutName "diphotonETMiss" then Outcome.ret (diphotonETMissCut ev) r.2
      else if Contains cutName "all" then allCutsBranch call r.2
      else Outcome.ret true r.2)

/-- The method `DMEvtSelect::passesCut(cutName, weight)` on the event `ev`; the
first argument bounds the depth of nested calls, which are made through the
one-argument overload (weight 1.0). -/
def passesCutFuel : Nat → DMEvtSelect → EventInfoAuxDyn → String → ℚ → Outcome
  | 0, _, _, _, _ => Outcome.outOfFuel
  | fuel + 1, s, ev, cutName, weight =>
    passesCutBody (fun t c => passesCutFuel fuel t ev c 1) s ev cutName weight

/-- The method `DMEvtSelect::passesCut(cutName, weight)`: a nested call never
reaches the aggregate branch (the loop skips the names containing "all"), so
depth two is enough. -/
def passesCut (s : DMEvtSelect) (ev : EventInfoAuxDyn) (cutName : String) (weight : ℚ) :
    Outcome :=
  passesCutFuel 2 s ev cutName weight

/-- The one-argument overload `passesCut(cutName)`: weight 1.0. -/
def passesCut1 (s : DMEvtSelect) (ev : EventInfoAuxDyn) (cutName : String) : Outcome :=
  s.passesCut ev cutName 1

/-! ### Reports -/

/-- One pass of the loop of `printCutflow` and `saveCutflow` for the cut `c`:
the tokens of the row and the state after the `operator[]` reads. -/
def cutflowRow (weighted : Bool) (s : DMEvtSelect) (c : String) : List Tok × DMEvtSelect :=
  if weighted then
    ([Tok.str "\t", Tok.str c, Tok.str "\t", Tok.dbl (s.evtCountPassWt.val c), Tok.str " / ",
        Tok.dbl (s.evtCountTotalWt.val c), Tok.endl],
      { s with
        evtCountPassWt := s.evtCountPassWt.touch c
        evtCountTotalWt := s.evtCountTotalWt.touch c })
  else
    ([Tok.str "\t", Tok.str c, Tok.str "\t", Tok.int (s.evtCountPass.val c), Tok.str " / ",
        Tok.int (s.evtCountTotal.val c), Tok.endl],
      { s with
        evtCountPass := s.evtCountPass.touch c
        evtCountTotal := s.evtCountTotal.touch c })

/-- The loop over `cutList` of `printCutflow` and `saveCutflow`: the rows
written so far and the state. -/
def cutflowRows (weighted : Bool) : List String → List Tok × DMEvtSelect → List Tok × DMEvtSelect
  | [], acc => acc
  | c :: rest, acc =>
    let r := cutflowRow weighted acc.2 c
    cutflowRows weighted rest (acc.1 ++ r.1, r.2)

/-- The method `DMEvtSelect::printCutflow`. -/
def printCutflow (s : DMEvtSelect) (weighted : Bool) : DMEvtSelect :=
  let s1 := s.print [Tok.str "Printing Cutflow: ", Tok.endl]
  let r := cutflowRows weighted s1.cutList ([], s1)
  r.2.print r.1

/-- The method `DMEvtSelect::saveCutflow`: the tokens written to the file and
the state afterwards. -/
def saveCutflow (s : DMEvtSelect) (weighted : Bool) : List Tok × DMEvtSelect :=
  cutflowRows weighted s.cutList ([], s)

/-- One pass of the inner loop of `printCategorization` and
`saveCategorization` for the scheme `it`: the key is built from `it.second`,
and the weighted report reads `cateCount`, the unweighted one `cateCountWt`,
as in the source. -/
def cateCell (weighted : Bool) (it : String × Int) (s : DMEvtSelect) : List Tok × DMEvtSelect :=
  if weighted then
    ([Tok.int (s.cateCount.val (Form it.1 it.2)), Tok.str " "],
      { s with cateCount := s.cateCount.touch (Form it.1 it.2) })
  else
    ([Tok.dbl (s.cateCountWt.val (Form it.1 it.2)), Tok.str " "],
      { s with cateCountWt := s.cateCountWt.touch (Form it.1 it.2) })

/-- The inner loop `for (int j = 0; j < it.second; j++)` of the categorisation
reports, run `n` more times. -/
def cateCells (weighted : Bool) (it : String × Int) : Nat → List Tok × DMEvtSelect →
    List Tok × DMEvtSelect
  | 0, acc => acc
  | n + 1, acc =>
    let r := cateCell weighted it acc.2
    cateCells weighted it n (acc.1 ++ r.1, r.2)

/-- The outer loop over `cateNamesAndSizes` of the categorisation reports. -/
def cateRows (weighted : Bool) : List (String × Int) → List Tok × DMEvtSelect →
    List Tok × DMEvtSelect
  | [], acc => acc
  | it :: rest, acc =>
    let r := cateCells weighted it it.2.toNat (acc.1 ++ [Tok.str "\t", Tok.str it.1, Tok.str " "], acc.2)
    cateRows weighted rest (r.1 ++ [Tok.endl], r.2)

/-- The method `DMEvtSelect::printCategorization`. -/
def printCategorization (s : DMEvtSelect) (weighted : Bool) : DMEvtSelect :=
  let s1 := s.print [Tok.str "Printing Categories: ", Tok.endl]
  let r := cateRows weighted s1.cateNamesAndSizes ([], s1)
  r.2.print r.1

/-- The method `DMEvtSelect::saveCategorization`: the tokens written to the
file and the state afterwards. -/
def saveCategorization (s : DMEvtSelect) (weighted : Bool) : List Tok × DMEvtSelect :=
  cateRows weighted s.cateNamesAndSizes ([], s)

/-! ### Reachable states -/

/-- The five atomic cuts: the registered names other than the aggregate. -/
def atomicCuts : List String :=
  ["photonPt", "photonEta", "diphotonMass", "diphotonPt", "diphotonETMiss"]

/-- The selector states that a client can produce: construction followed by any
sequence of calls of the public methods, each on an arbitrary current event.  A
call of `passesCut` contributes its final state when it returns. -/
inductive Reachable : DMEvtSelect → Prop
  | construct : Reachable new
  | passesCut {s t : DMEvtSelect} (ev : EventInfoAuxDyn) (cutName : String) (weight : ℚ)
      (b : Bool) : Reachable s → s.passesCut ev cutName weight = Outcome.ret b t → Reachable t
  | getCategoryNumber {s : DMEvtSelect} (ev : EventInfoAuxDyn) (cateName : String)
      (weight : ℚ) : Reachable s → Reachable (s.getCategoryNumber ev cateName weight).2
  | clearCounters {s : DMEvtSelect} : Reachable s → Reachable s.clearCounters
  | getPassingEvents {s : DMEvtSelect} (cutName : String) :
      Reachable s → Reachable (s.getPassingEvents cutName).2
  | getPassingEventsWt {s : DMEvtSelect} (cutName : String) :
      Reachable s → Reachable (s.getPassingEventsWt cutName).2
  | getTotalEvents {s : DMEvtSelect} (cutName : String) :
      Reachable s → Reachable (s.getTotalEvents cutName).2
  | getTotalEventsWt {s : DMEvtSelect} (cutName : String) :
      Reachable s → Reachable (s.getTotalEventsWt cutName).2
  | getEventsPerCate {s : DMEvtSelect} (cateName : String) (cate : Int) :
      Reachable s → Reachable (s.getEventsPerCate cateName cate).2
  | getEventsPerCateWt {s : DMEvtSelect} (cateName : String) (cate : Int) :
      Reachable s → Reachable (s.getEventsPerCateWt cateName cate).2
  | printCutflow {s : DMEvtSelect} (weighted : Bool) :
      Reachable s → Reachable (s.printCutflow weighted)
  | printCategorization {s : DMEvtSelect} (weighted : Bool) :
      Reachable s → Reachable (s.printCategorization weighted)
  | saveCutflow {s : DMEvtSelect} (weighted : Bool) :
      Reachable s → Reachable (s.saveCutflow weighted).2
  | saveCategorization {s : DMEvtSelect} (weighted : Bool) :
      Reachable s → Reachable (s.saveCategorization weighted).2

/-- The state `t` keeps the registries of `s` and every entry of its total-count
map `evtCountTot` (possibly with another value). -/
def Extends (s t : DMEvtSelect) : Prop :=
  t.cutList = s.cutList ∧ t.cateNamesAndSizes = s.cateNamesAndSizes ∧
    ∀ k, s.evtCountTot.found k = true → t.evtCountTot.found k = true

/-- The registries are the ones set by the constructor and every registered cut
has an entry in `evtCountTot`. -/
def Registered (s : DMEvtSelect) : Prop :=
  s.cutList = registeredCuts ∧ s.cateNamesAndSizes = registeredCates ∧
    ∀ c ∈ registeredCuts, s.evtCountTot.found c = true

/-- The state `t` has the registries and the maps `evtCountTot`, `evtCountTotWt`
of `s`. -/
def Keeps (s t : DMEvtSelect) : Prop :=
  t.cutList = s.cutList ∧ t.cateNamesAndSizes = s.cateNamesAndSizes ∧
    t.evtCountTot = s.evtCountTot ∧ t.evtCountTotWt = s.evtCountTotWt

/-! ### Sample events -/

/-- An event on which all five comparisons hold, with `metref_final = 200`. -/
def evHighMet : EventInfoAuxDyn :=
  { y1_pt := 60, y2_pt := 40, m_yy := 125, y1_eta := 1, y2_eta := 1, pt_yy := 130,
    metref_final := 200 }

/-- An event with `metref_final = 50`. -/
def evLowMet : EventInfoAuxDyn :=
  { y1_pt := 60, y2_pt := 40, m_yy := 125, y1_eta := 1, y2_eta := 1, pt_yy := 130,
    metref_final := 50 }

/-! ### Counter values -/

/-- The function `f` with `d` added at the key `k`. -/
def bump {V : Type} [Add V] (f : String → V) (k : String) (d : V) : String → V :=
  fun j => if j = k then f j + d else f j

/-- The function `f` of `int` values after `++` at the key `k`. -/
def bumpInt (f : String → Int) (k : String) : String → Int :=
  fun j => if j = k then wrapInt (f j + 1) else f j

/-- The values denoted by the counters of a selector (an absent entry reads as
the default 0, as `operator[]` does), together with the flag `recursiveCall`. -/
structure Counts where
  flag : Bool
  pass : String → Int
  passWt : String → ℚ
  tot : String → Int
  totWt : String → ℚ
  total : String → Int
  totalWt : String → ℚ
  cate : String → Int
  cateWt : String → ℚ

/-- The counter values of the state `s`. -/
def view (s : DMEvtSelect) : Counts :=
  { flag := s.recursiveCall
    pass := s.evtCountPass.val
    passWt := s.evtCountPassWt.val
    tot := s.evtCountTot.val
    totWt := s.evtCountTotWt.val
    total := s.evtCountTotal.val
    totalWt := s.evtCountTotalWt.val
    cate := s.cateCount.val
    cateWt := s.cateCountWt.val }

/-- The counter values after `clearCounters` with the cut list `l`. -/
def clearView (l : List String) (v : Counts) : Counts :=
  { flag := v.flag
    pass := fun _ => 0
    passWt := fun _ => 0
    tot := fun _ => 0
    totWt := fun _ => 0
    total := v.total
    totalWt := fun k => if k ∈ l then 0 else v.totalWt k
    cate := fun _ => 0
    cateWt := fun _ => 0 }

/-- The counter values after the counting step of `getCategoryNumber` on the key `k`. -/
def cateView (v : Counts) (k : String) (w : ℚ) : Counts :=
  { v with
    cate := bumpInt v.cate k
    cateWt := bump v.cateWt k w }

/-- The counter values after the counting step of `passesCut` for the cut `c`. -/
def countView (v : Counts) (c : String) (w : ℚ) (b : Bool) : Counts :=
  { v with
    tot := bumpInt v.tot c
    totWt := bump v.totWt c w
    pass := if b then bumpInt v.pass c else v.pass
    passWt := if b then bump v.passWt c w else v.passWt }

/-- The state `t` is `s` up to the output and the flag `recursiveCall`. -/
def Quiet (s t : DMEvtSelect) : Prop :=
  t = { s with recursiveCall := t.recursiveCall, cout := t.cout }

/-- The state `t` is `s` up to the two category maps. -/
def CateOnly (s t : DMEvtSelect) : Prop :=
  t = { s with cateCount := t.cateCount, cateCountWt := t.cateCountWt }

/-- A cut name without an entry in `evtCountTot` has all four of its cut
counters at 0. -/
def Uncounted (s : DMEvtSelect) : Prop :=
  ∀ c, s.evtCountTot.found c = false →
    s.evtCountPass.val c = 0 ∧ s.evtCountPassWt.val c = 0 ∧
      s.evtCountTot.val c = 0 ∧ s.evtCountTotWt.val c = 0

/-- The states reachable from construction by calls of the public methods in
which every weight satisfies `P` (the one-argument overloads pass 1.0). -/
inductive ReachableWith (P : ℚ → Prop) : DMEvtSelect → Prop
  | construct : ReachableWith P new
  | passesCut {s t : DMEvtSelect} (ev : EventInfoAuxDyn) (cutName : String) (weight : ℚ)
      (b : Bool) : P weight → ReachableWith P s →
      s.passesCut ev cutName weight = Outcome.ret b t → ReachableWith P t
  | getCategoryNumber {s : DMEvtSelect} (ev : EventInfoAuxDyn) (cateName : String)
      (weight : ℚ) : P weight → ReachableWith P s →
      ReachableWith P (s.getCategoryNumber ev cateName weight).2
  | clearCounters {s : DMEvtSelect} : ReachableWith P s → ReachableWith P s.clearCounters
  | getPassingEvents {s : DMEvtSelect} (cutName : String) :
      ReachableWith P s → ReachableWith P (s.getPassingEvents cutName).2
  | getPassingEventsWt {s : DMEvtSelect} (cutName : String) :
      ReachableWith P s → ReachableWith P (s.getPassingEventsWt cutName).2
  | getTotalEvents {s : DMEvtSelect} (cutName : String) :
      ReachableWith P s → ReachableWith P (s.getTotalEvents cutName).2
  | getTotalEventsWt {s : DMEvtSelect} (cutName : String) :
      ReachableWith P s → ReachableWith P (s.getTotalEventsWt cutName).2
  | getEventsPerCate {s : DMEvtSelect} (cateName : String) (cate : Int) :
      ReachableWith P s → ReachableWith P (s.getEventsPerCate cateName cate).2
  | getEventsPerCateWt {s : DMEvtSelect} (cateName : String) (cate : Int) :
      ReachableWith P s → ReachableWith P (s.getEventsPerCateWt cateName cate).2
  | printCutflow {s : DMEvtSelect} (weighted : Bool) :
      ReachableWith P s → ReachableWith P (s.printCutflow weighted)
  | printCategorization {s : DMEvtSelect} (weighted : Bool) :
      ReachableWith P s → ReachableWith P (s.printCategorization weighted)
  | saveCutflow {s : DMEvtSelect} (weighted : Bool) :
      ReachableWith P s → ReachableWith P (s.saveCutflow weighted).2
  | saveCategorization {s : DMEvtSelect} (weighted : Bool) :
      ReachableWith P s → ReachableWith P (s.saveCategorization weighted).2

/-! ### Reports as functions of the counter values -/

/-- The tokens of one row of the cut-flow report, from the values that
`cutflowRow` reads. -/
def rowToks (weighted : Bool) (v : Counts) (c : String) : List Tok :=
  if weighted then
    [Tok.str "\t", Tok.str c, Tok.str "\t", Tok.dbl (v.passWt c), Tok.str " / ",
      Tok.dbl (v.totalWt c), Tok.endl]
  else
    [Tok.str "\t", Tok.str c, Tok.str "\t", Tok.int (v.pass c), Tok.str " / ",
      Tok.int (v.total c), Tok.endl]

/-- The rows of the cut-flow report for the cuts of `l`, in order. -/
def rowsToks (weighted : Bool) (v : Counts) : List String → List Tok
  | [] => []
  | c :: rest => rowToks weighted v c ++ rowsToks weighted v rest

/-- The cut-flow table as the specification describes it: one row for each cut
of `l`, in order, showing the cut name with the pass counter and the total
counter that `passesCut` maintains (`evtCountPassWt` / `evtCountTotWt` when
weighted, `evtCountPass` / `evtCountTot` otherwise). -/
def cutflowSpec (weighted : Bool) (s : DMEvtSelect) : List String → List Tok
  | [] => []
  | c :: rest =>
    (if weighted then
      [Tok.str "\t", Tok.str c, Tok.str "\t", Tok.dbl (s.evtCountPassWt.val c), Tok.str " / ",
        Tok.dbl (s.evtCountTotWt.val c), Tok.endl]
    else
      [Tok.str "\t", Tok.str c, Tok.str "\t", Tok.int (s.evtCountPass.val c), Tok.str " / ",
        Tok.int (s.evtCountTot.val c), Tok.endl]) ++ cutflowSpec weighted s rest

/-- An event with `pt_yy = 130` on which the photon pT ratios are too small:
`y1_pt / m_yy = 10 / 125`. -/
def evLowRatio : EventInfoAuxDyn :=
  { y1_pt := 10, y2_pt := 10, m_yy := 125, y1_eta := 1, y2_eta := 1, pt_yy := 130,
    metref_final := 200 }

/-- An event with `pt_yy = 50` on which the photon pT ratios are large enough. -/
def evLowPt : EventInfoAuxDyn :=
  { y1_pt := 60, y2_pt := 40, m_yy := 125, y1_eta := 1, y2_eta := 1, pt_yy := 50,
    metref_final := 200 }

/-! ### Sample states -/

/-- The state after the call `passesCut("all")` (weight 1.0) on the freshly
constructed selector: the five nested calls have each printed the diagnostic
and the event is counted as tested, not passing, under "all". -/
def afterAll : DMEvtSelect :=
  countEvent
    { new with
      cout := new.cout ++
        [Tok.str "DMEvtSelect: Cut not defined!", Tok.endl,
          Tok.str "DMEvtSelect: Cut not defined!", Tok.endl,
          Tok.str "DMEvtSelect: Cut not defined!", Tok.endl,
          Tok.str "DMEvtSelect: Cut not defined!", Tok.endl,
          Tok.str "DMEvtSelect: Cut not defined!", Tok.endl] }
    "all" 1 false

/-- The state after classifying one event with `metref_final = 200` under
"splitETMiss" on the freshly constructed selector. -/
def afterHighMet : DMEvtSelect :=
  (new.getCategoryNumber1 evHighMet "splitETMiss").2

end DMEvtSelect

/-! ## The event loop of `DMMassPoints::createNewMassPoints` -/

namespace DMMassPoints

/-- Modelled from the spec: the per-category outputs that
`createNewMassPoints` fills.  `RooDataSet` and `ofstream` are library types; a
dataset `cateData[i]` is the list of the entries added to it (the value of
`m_yy` with the weight of the entry, if it has one) and a mass file
`massFiles[i]` is the list of the tokens written to it. -/
structure MassPoints where
  cateData : Int → List (ℚ × Option ℚ)
  massFiles : Int → List Tok

/-- Modelled from the spec: `DMEvtSelect::getNCategories` is called by
`DMMassPoints.cxx` but not defined under src; it is the declared category count
of the scheme, `cateNamesAndSizes[cateName]` (0 for a name without an entry). -/
def getNCategories (sel : DMEvtSelect) (cateName : String) : Int :=
  (sel.cateNamesAndSizes.lookup cateName).getD 0

/-- The block "Save the categories" of the event loop (lines 276-290), for the
category `currCate` returned by the selector. -/
def saveCategory (mp : MassPoints) (ev : EventInfoAuxDyn) (isWeighted : Bool) (evtWeight : ℚ)
    (currCate : Int) : MassPoints :=
  if 0 < currCate then
    if isWeighted then
      { cateData := fun i =>
          if i = currCate then mp.cateData i ++ [(ev.m_yy, some evtWeight)] else mp.cateData i
        massFiles := fun i =>
          if i = currCate then
            mp.massFiles i ++ [Tok.dbl ev.m_yy, Tok.str " ", Tok.dbl evtWeight, Tok.endl]
          else mp.massFiles i }
    else
      { cateData := fun i =>
          if i = currCate then mp.cateData i ++ [(ev.m_yy, none)] else mp.cateData i
        massFiles := fun i =>
          if i = currCate then mp.massFiles i ++ [Tok.dbl ev.m_yy, Tok.endl]
          else mp.massFiles i }
  else mp

/-- The first test of the selection, `sampleName.EqualTo("gg_gjet") &&
!selector->passesCut("looseCuts", evtWeight)`: the call is made only for the
sample "gg_gjet"; the result is whether the event is skipped, with the selector
afterwards (`none` when the call does not return a value). -/
def looseSelection (sel : DMEvtSelect) (ev : EventInfoAuxDyn) (sampleName : String)
    (evtWeight : ℚ) : Option (Bool × DMEvtSelect) :=
  if sampleName = "gg_gjet" then
    match sel.passesCut ev "looseCuts" evtWeight with
    | DMEvtSelect.Outcome.ret b t => some (!b, t)
    | DMEvtSelect.Outcome.undef => none
    | DMEvtSelect.Outcome.outOfFuel => none
  else some (false, sel)

/-- One pass of the loop over the input tree (lines 265-291) for the event `ev`
with the weight `evtWeight` computed for it: the selector and the outputs
afterwards (`none` when a call of `passesCut` does not return a value). -/
def createNewMassPointsEvent (sel : DMEvtSelect) (mp : MassPoints) (ev : EventInfoAuxDyn)
    (sampleName cateScheme : String) (isWeighted : Bool) (evtWeight : ℚ) :
    Option (DMEvtSelect × MassPoints) :=
  match looseSelection sel ev sampleName evtWeight with
  | none => none
  | some (true, t) => some (t, mp)
  | some (false, t) =>
    match t.passesCut ev "allCuts" evtWeight with
    | DMEvtSelect.Outcome.ret b u =>
      if !b then some (u, mp)
      else
        some ((u.getCategoryNumber1 ev cateScheme).2,
          saveCategory mp ev isWeighted evtWeight (u.getCategoryNumber1 ev cateScheme).1)
    | DMEvtSelect.Outcome.undef => none
    | DMEvtSelect.Outcome.outOfFuel => none

/-- The outputs before the event loop: every dataset and every file is empty. -/
def emptyMassPoints : MassPoints :=
  { cateData := fun _ => []
    massFiles := fun _ => [] }

end DMMassPoints

end HggDM

/-! # Properties -/

namespace HggDM

open DMEvtSelect

/-! ## Maps -/

theorem TMap.found_set {V : Type} (m : TMap V) (k j : String) (v : V) :
    (m.set k v).found j = (decide (j = k) || m.found j) := by
  unfold TMap.found TMap.set
  by_cases h : j = k <;> simp [h]

theorem TMap.found_set_of_found {V : Type} (m : TMap V) (k j : String) (v : V)
    (h : m.found j = true) : (m.set k v).found j = true := by
  rw [TMap.found_set, h, Bool.or_true]

theorem TMap.found_add_of_found {V : Type} [Zero V] [Add V] (m : TMap V) (k j : String)
    (d : V) (h : m.found j = true) : (m.add k d).found j = true :=
  TMap.found_set_of_found m k j _ h

theorem TMap.found_incr_of_found (m : TMap Int) (k j : String)
    (h : m.found j = true) : (m.incr k).found j = true :=
  TMap.found_set_of_found m k j _ h

theorem wrapInt_one : wrapInt (0 + 1) = 1 := by decide

theorem wrapInt_one_eq : wrapInt 1 = 1 := by decide

theorem TMap.found_touch_of_found {V : Type} [Zero V] (m : TMap V) (k j : String)
    (h : m.found j = true) : (m.touch k).found j = true :=
  TMap.found_set_of_found m k j _ h

theorem TMap.set_other {V : Type} (m : TMap V) (k j : String) (v : V) (h : j ≠ k) :
    (m.set k v) j = m j := by
  simp [TMap.set, h]

theorem TMap.set_same {V : Type} (m : TMap V) (k : String) (v : V) :
    (m.set k v) k = some v := by
  simp [TMap.set]

namespace DMEvtSelect

/-! ## The order `Extends` -/

theorem extends_refl (s : DMEvtSelect) : Extends s s :=
  ⟨rfl, rfl, fun _ h => h⟩

theorem extends_trans {s t u : DMEvtSelect} (h₁ : Extends s t) (h₂ : Extends t u) :
    Extends s u :=
  ⟨h₂.1.trans h₁.1, h₂.2.1.trans h₁.2.1, fun k hk => h₂.2.2 k (h₁.2.2 k hk)⟩

theorem registered_of_extends {s t : DMEvtSelect} (hs : Registered s) (h : Extends s t) :
    Registered t :=
  ⟨h.1.trans hs.1, h.2.1.trans hs.2.1, fun c hc => h.2.2 c (hs.2.2 c hc)⟩

theorem extends_print (s : DMEvtSelect) (toks : List Tok) : Extends s (s.print toks) :=
  ⟨rfl, rfl, fun _ h => h⟩

theorem cutExists_of_found {s : DMEvtSelect} {c : String} (h : s.evtCountTot.found c = true) :
    s.cutExists c = (false, s.print [Tok.str "DMEvtSelect: Cut not defined!", Tok.endl]) := by
  simp [cutExists, h]

theorem cutExists_of_not_found {s : DMEvtSelect} {c : String}
    (h : s.evtCountTot.found c = false) : s.cutExists c = (true, s) := by
  simp [cutExists, h]

theorem cateExists_of_found {s : DMEvtSelect} {c : String}
    (h : s.cateCount.found (Form0 c) = true) :
    s.cateExists c
      = (false, s.print [Tok.str "DMEvtSelect: Category not defined!", Tok.endl]) := by
  simp [cateExists, h]

theorem cateExists_of_not_found {s : DMEvtSelect} {c : String}
    (h : s.cateCount.found (Form0 c) = false) : s.cateExists c = (true, s) := by
  simp [cateExists, h]

theorem extends_cutExists (s : DMEvtSelect) (c : String) : Extends s (s.cutExists c).2 := by
  cases h : s.evtCountTot.found c
  · rw [cutExists_of_not_found h]; exact extends_refl s
  · rw [cutExists_of_found h]; exact extends_print s _

theorem extends_cateExists (s : DMEvtSelect) (c : String) : Extends s (s.cateExists c).2 := by
  cases h : s.cateCount.found (Form0 c)
  · rw [cateExists_of_not_found h]; exact extends_refl s
  · rw [cateExists_of_found h]; exact extends_print s _

/-! ### Queries -/

theorem extends_getPassingEvents (s : DMEvtSelect) (c : String) :
    Extends s (s.getPassingEvents c).2 := by
  unfold getPassingEvents
  have h := extends_cutExists s c
  by_cases hb : (s.cutExists c).1 = true
  · simp only [hb, if_true]; exact h
  · simp only [hb]; exact h

theorem extends_getPassingEventsWt (s : DMEvtSelect) (c : String) :
    Extends s (s.getPassingEventsWt c).2 := by
  unfold getPassingEventsWt
  have h := extends_cutExists s c
  by_cases hb : (s.cutExists c).1 = true
  · simp only [hb, if_true]; exact h
  · simp only [hb]; exact h

theorem extends_getTotalEvents (s : DMEvtSelect) (c : String) :
    Extends s (s.getTotalEvents c).2 := by
  unfold getTotalEvents
  have h := extends_cutExists s c
  by_cases hb : (s.cutExists c).1 = true
  · simp only [hb, if_true]
    exact ⟨h.1, h.2.1, fun k hk => TMap.found_touch_of_found _ _ _ (h.2.2 k hk)⟩
  · simp only [hb]; exact h

theorem extends_getTotalEventsWt (s : DMEvtSelect) (c : String) :
    Extends s (s.getTotalEventsWt c).2 := by
  unfold getTotalEventsWt
  have h := extends_cutExists s c
  by_cases hb : (s.cutExists c).1 = true
  · simp only [hb, if_true]; exact h
  · simp only [hb]; exact h

theorem extends_getEventsPerCate (s : DMEvtSelect) (c : String) (i : Int) :
    Extends s (s.getEventsPerCate c i).2 := by
  unfold getEventsPerCate
  have h := extends_cateExists s c
  by_cases hb : (s.cateExists c).1 = true
  · simp only [hb, if_true]; exact h
  · simp only [hb]; exact h

theorem extends_getEventsPerCateWt (s : DMEvtSelect) (c : String) (i : Int) :
    Extends s (s.getEventsPerCateWt c i).2 := by
  unfold getEventsPerCateWt
  have h := extends_cateExists s c
  by_cases hb : (s.cateExists c).1 = true
  · simp only [hb, if_true]; exact h
  · simp only [hb]; exact h

/-! ### Categorisation -/

theorem extends_getCategoryNumber (s : DMEvtSelect) (ev : EventInfoAuxDyn) (c : String)
    (w : ℚ) : Extends s (s.getCategoryNumber ev c w).2 := by
  unfold getCategoryNumber
  refine extends_trans (extends_cateExists s c) ?_
  generalize (s.cateExists c) = r
  cases r.1 <;> cases Contains c "inclusive" <;>
    first
    | exact extends_refl _
    | (simp only [Bool.not_true, Bool.not_false, if_true, if_false, Bool.false_eq_true]
       split_ifs <;> exact ⟨rfl, rfl, fun _ hk => hk⟩)

/-! ### Cuts -/

theorem extends_countEvent (s : DMEvtSelect) (c : String) (w : ℚ) (p : Bool) :
    Extends s (countEvent s c w p) := by
  unfold countEvent
  cases p
  · exact ⟨rfl, rfl, fun k hk => TMap.found_incr_of_found _ _ _ hk⟩
  · exact ⟨rfl, rfl, fun k hk => TMap.found_incr_of_found _ _ _ hk⟩

theorem countStep_ret {c : String} {w : ℚ} {o : Outcome} {b : Bool} {t : DMEvtSelect}
    (h : countStep c w o = Outcome.ret b t) :
    ∃ u, o = Outcome.ret b u ∧ u.recursiveCall = false ∧ t = countEvent u c w b := by
  cases o with
  | ret p u =>
    unfold countStep at h
    cases hr : u.recursiveCall
    · simp only [hr, Bool.not_false, if_true, Outcome.ret.injEq] at h
      obtain ⟨h1, h2⟩ := h
      subst h1
      exact ⟨u, rfl, hr, h2.symm⟩
    · simp [hr] at h
  | undef => simp [countStep] at h
  | outOfFuel => simp [countStep] at h

theorem allCutsLoop_extends {call : DMEvtSelect → String → Outcome}
    (hcall : ∀ t c b u, call t c = Outcome.ret b u → Extends t u) :
    ∀ (l : List String) (s : DMEvtSelect) (p b : Bool) (t : DMEvtSelect),
      allCutsLoop call l s p = Outcome.ret b t → Extends s t := by
  intro l
  induction l with
  | nil =>
    intro s p b t h
    simp only [allCutsLoop, Outcome.ret.injEq] at h
    rw [← h.2]
    exact extends_refl s
  | cons c rest ih =>
    intro s p b t h
    unfold allCutsLoop at h
    by_cases hc : Contains c "all" = true
    · rw [if_pos hc] at h
      exact ih s p b t h
    · rw [if_neg hc] at h
      cases hr : call s c with
      | ret b0 u =>
        rw [hr] at h
        exact extends_trans (hcall s c b0 u hr) (ih u _ b t h)
      | undef => rw [hr] at h; cases h
      | outOfFuel => rw [hr] at h; cases h

theorem allCutsBranch_extends {call : DMEvtSelect → String → Outcome}
    (hcall : ∀ t c b u, call t c = Outcome.ret b u → Extends t u)
    {s : DMEvtSelect} {b : Bool} {t : DMEvtSelect}
    (h : allCutsBranch call s = Outcome.ret b t) : Extends s t := by
  unfold allCutsBranch at h
  cases hr : allCutsLoop call s.cutList { s with recursiveCall := true } true with
  | ret p u =>
    rw [hr] at h
    simp only [Outcome.ret.injEq] at h
    have hu := allCutsLoop_extends hcall _ _ _ _ _ hr
    rw [← h.2]
    exact ⟨hu.1, hu.2.1, hu.2.2⟩
  | undef => rw [hr] at h; cases h
  | outOfFuel => rw [hr] at h; cases h

theorem passesCutBody_extends {call : DMEvtSelect → String → Outcome}
    (hcall : ∀ t c b u, call t c = Outcome.ret b u → Extends t u)
    {s : DMEvtSelect} {ev : EventInfoAuxDyn} {c : String} {w : ℚ} {b : Bool} {t : DMEvtSelect}
    (h : passesCutBody call s ev c w = Outcome.ret b t) : Extends s t := by
  unfold passesCutBody at h
  have hx := extends_cutExists s c
  generalize s.cutExists c = r at h hx
  cases hr : r.1
  · simp only [hr, Bool.not_false, if_true, Outcome.ret.injEq] at h
    rw [← h.2]
    exact hx
  · simp only [hr, Bool.not_true, Bool.false_eq_true, if_false] at h
    obtain ⟨u, hu, -, rfl⟩ := countStep_ret h
    refine extends_trans hx (extends_trans ?_ (extends_countEvent u c w b))
    split_ifs at hu <;>
      first
      | (simp only [Outcome.ret.injEq] at hu
         rw [← hu.2]
         exact extends_refl _)
      | exact allCutsBranch_extends hcall hu

theorem passesCutFuel_extends :
    ∀ (n : Nat) (s : DMEvtSelect) (ev : EventInfoAuxDyn) (c : String) (w : ℚ) (b : Bool)
      (t : DMEvtSelect), passesCutFuel n s ev c w = Outcome.ret b t → Extends s t := by
  intro n
  induction n with
  | zero =>
    intro s ev c w b t h
    simp [passesCutFuel] at h
  | succ n ih =>
    intro s ev c w b t h
    unfold passesCutFuel at h
    exact passesCutBody_extends (fun t0 c0 b0 u hu => ih t0 ev c0 1 b0 u hu) h

theorem passesCut_extends {s : DMEvtSelect} {ev : EventInfoAuxDyn} {c : String} {w : ℚ}
    {b : Bool} {t : DMEvtSelect} (h : s.passesCut ev c w = Outcome.ret b t) : Extends s t :=
  passesCutFuel_extends 2 s ev c w b t h

/-- In a state where the cut name has an entry in `evtCountTot` the existence
guard of `passesCut` returns `false` at once: only the diagnostic is printed. -/
theorem passesCutFuel_of_found (n : Nat) {s : DMEvtSelect} (ev : EventInfoAuxDyn) {c : String}
    (w : ℚ) (h : s.evtCountTot.found c = true) :
    passesCutFuel (n + 1) s ev c w
      = Outcome.ret false (s.print [Tok.str "DMEvtSelect: Cut not defined!", Tok.endl]) := by
  unfold passesCutFuel passesCutBody
  simp [cutExists_of_found h]

theorem passesCut_of_found {s : DMEvtSelect} (ev : EventInfoAuxDyn) {c : String}
    (w : ℚ) (h : s.evtCountTot.found c = true) :
    s.passesCut ev c w
      = Outcome.ret false (s.print [Tok.str "DMEvtSelect: Cut not defined!", Tok.endl]) :=
  passesCutFuel_of_found 1 ev w h

/-! ### Loops that leave the cut registry and the total counters alone -/

theorem keeps_refl (s : DMEvtSelect) : Keeps s s := ⟨rfl, rfl, rfl, rfl⟩

theorem keeps_trans {s t u : DMEvtSelect} (h₁ : Keeps s t) (h₂ : Keeps t u) : Keeps s u :=
  ⟨h₂.1.trans h₁.1, h₂.2.1.trans h₁.2.1, h₂.2.2.1.trans h₁.2.2.1, h₂.2.2.2.trans h₁.2.2.2⟩

theorem keeps_extends {s t : DMEvtSelect} (h : Keeps s t) : Extends s t :=
  ⟨h.1, h.2.1, fun k hk => by rw [h.2.2.1]; exact hk⟩

theorem keeps_cutflowRow (w : Bool) (s : DMEvtSelect) (c : String) :
    Keeps s (cutflowRow w s c).2 := by
  unfold cutflowRow
  cases w <;> exact ⟨rfl, rfl, rfl, rfl⟩

theorem keeps_cutflowRows (w : Bool) :
    ∀ (l : List String) (acc : List Tok × DMEvtSelect), Keeps acc.2 (cutflowRows w l acc).2 := by
  intro l
  induction l with
  | nil => intro acc; exact keeps_refl _
  | cons c rest ih =>
    intro acc
    unfold cutflowRows
    exact keeps_trans (keeps_cutflowRow w acc.2 c) (ih _)

theorem keeps_cateCell (w : Bool) (it : String × Int) (s : DMEvtSelect) :
    Keeps s (cateCell w it s).2 := by
  unfold cateCell
  cases w <;> exact ⟨rfl, rfl, rfl, rfl⟩

theorem keeps_cateCells (w : Bool) (it : String × Int) :
    ∀ (n : Nat) (acc : List Tok × DMEvtSelect), Keeps acc.2 (cateCells w it n acc).2 := by
  intro n
  induction n with
  | zero => intro acc; exact keeps_refl _
  | succ n ih =>
    intro acc
    unfold cateCells
    exact keeps_trans (keeps_cateCell w it acc.2) (ih _)

theorem keeps_cateRows (w : Bool) :
    ∀ (l : List (String × Int)) (acc : List Tok × DMEvtSelect),
      Keeps acc.2 (cateRows w l acc).2 := by
  intro l
  induction l with
  | nil => intro acc; exact keeps_refl _
  | cons it rest ih =>
    intro acc
    simp only [cateRows]
    exact keeps_trans
      (keeps_cateCells w it it.2.toNat (acc.1 ++ [Tok.str "\t", Tok.str it.1, Tok.str " "], acc.2))
      (ih _)

theorem extends_printCutflow (s : DMEvtSelect) (w : Bool) : Extends s (s.printCutflow w) := by
  unfold printCutflow
  have h := keeps_extends (keeps_cutflowRows w
    (s.print [Tok.str "Printing Cutflow: ", Tok.endl]).cutList
    ([], s.print [Tok.str "Printing Cutflow: ", Tok.endl]))
  exact extends_trans (extends_print s _) (extends_trans h (extends_print _ _))

theorem extends_saveCutflow (s : DMEvtSelect) (w : Bool) : Extends s (s.saveCutflow w).2 :=
  keeps_extends (keeps_cutflowRows w s.cutList ([], s))

theorem extends_printCategorization (s : DMEvtSelect) (w : Bool) :
    Extends s (s.printCategorization w) := by
  unfold printCategorization
  have h := keeps_extends (keeps_cateRows w
    (s.print [Tok.str "Printing Categories: ", Tok.endl]).cateNamesAndSizes
    ([], s.print [Tok.str "Printing Categories: ", Tok.endl]))
  exact extends_trans (extends_print s _) (extends_trans h (extends_print _ _))

theorem extends_saveCategorization (s : DMEvtSelect) (w : Bool) :
    Extends s (s.saveCategorization w).2 :=
  keeps_extends (keeps_cateRows w s.cateNamesAndSizes ([], s))

/-! ### Resetting -/

theorem keeps_clearCateLoop (s : DMEvtSelect) (it : String × Int) :
    Keeps s (clearCateLoop s it) := by
  unfold clearCateLoop
  generalize List.range it.2.toNat = l
  induction l generalizing s with
  | nil => exact keeps_refl s
  | cons j rest ih =>
    rw [List.foldl_cons]
    exact keeps_trans ⟨rfl, rfl, rfl, rfl⟩ (ih (clearCateStep it s))

theorem keeps_foldl_clearCateLoop (l : List (String × Int)) (s : DMEvtSelect) :
    Keeps s (l.foldl clearCateLoop s) := by
  induction l generalizing s with
  | nil => exact keeps_refl s
  | cons it rest ih =>
    rw [List.foldl_cons]
    exact keeps_trans (keeps_clearCateLoop s it) (ih _)

/-- The first loop of `clearCounters`: the registries and `evtCountTotWt` are
untouched, and the three maps it writes get the entry 0 for every cut of the
list. -/
theorem foldl_clearCutStep (l : List String) (s : DMEvtSelect) :
    (l.foldl clearCutStep s).cutList = s.cutList ∧
    (l.foldl clearCutStep s).cateNamesAndSizes = s.cateNamesAndSizes ∧
    (l.foldl clearCutStep s).evtCountTotWt = s.evtCountTotWt ∧
    (∀ k, (l.foldl clearCutStep s).evtCountTot k
        = if k ∈ l then some 0 else s.evtCountTot k) ∧
    (∀ k, (l.foldl clearCutStep s).evtCountPass k
        = if k ∈ l then some 0 else s.evtCountPass k) ∧
    (∀ k, (l.foldl clearCutStep s).evtCountPassWt k
        = if k ∈ l then some 0 else s.evtCountPassWt k) := by
  induction l generalizing s with
  | nil => simp
  | cons c rest ih =>
    rw [List.foldl_cons]
    obtain ⟨h1, h2, h3, h4, h5, h6⟩ := ih (clearCutStep s c)
    refine ⟨h1, h2, h3, ?_, ?_, ?_⟩
    · intro k
      rw [h4 k]
      by_cases hk : k ∈ rest
      · simp [hk]
      · by_cases hc : k = c <;> simp [hk, hc, clearCutStep, TMap.set]
    · intro k
      rw [h5 k]
      by_cases hk : k ∈ rest
      · simp [hk]
      · by_cases hc : k = c <;> simp [hk, hc, clearCutStep, TMap.set]
    · intro k
      rw [h6 k]
      by_cases hk : k ∈ rest
      · simp [hk]
      · by_cases hc : k = c <;> simp [hk, hc, clearCutStep, TMap.set]

/-- What `clearCounters` leaves in the cut counters: the registries are kept,
`evtCountTot`, `evtCountPass` and `evtCountPassWt` hold exactly the entries 0
for the cuts of `cutList`, and `evtCountTotWt` is empty. -/
theorem clearCounters_cuts (s : DMEvtSelect) :
    s.clearCounters.cutList = s.cutList ∧
    s.clearCounters.cateNamesAndSizes = s.cateNamesAndSizes ∧
    (∀ k, s.clearCounters.evtCountTotWt k = none) ∧
    (∀ k, s.clearCounters.evtCountTot k = if k ∈ s.cutList then some 0 else none) := by
  show _ ∧ _ ∧ (∀ k, (List.foldl clearCateLoop (List.foldl clearCutStep s.clearMaps
      s.clearMaps.cutList) (List.foldl clearCutStep s.clearMaps
      s.clearMaps.cutList).cateNamesAndSizes).evtCountTotWt k = none) ∧
    (∀ k, (List.foldl clearCateLoop (List.foldl clearCutStep s.clearMaps
      s.clearMaps.cutList) (List.foldl clearCutStep s.clearMaps
      s.clearMaps.cutList).cateNamesAndSizes).evtCountTot k = _)
  obtain ⟨h1, h2, h3, h4, -, -⟩ := foldl_clearCutStep s.clearMaps.cutList s.clearMaps
  obtain ⟨k1, k2, k3, k4⟩ := keeps_foldl_clearCateLoop
    (s.clearMaps.cutList.foldl clearCutStep s.clearMaps).cateNamesAndSizes
    (s.clearMaps.cutList.foldl clearCutStep s.clearMaps)
  refine ⟨k1.trans h1, k2.trans h2, ?_, ?_⟩
  · intro k
    rw [k4, h3]
    rfl
  · intro k
    rw [k3, h4 k]
    rfl

theorem registered_clearCounters {s : DMEvtSelect} (h : Registered s) :
    Registered s.clearCounters := by
  obtain ⟨h1, h2, -, h4⟩ := clearCounters_cuts s
  refine ⟨h1.trans h.1, h2.trans h.2.1, ?_⟩
  intro c hc
  unfold TMap.found
  rw [h4 c, h.1, if_pos hc]
  rfl

theorem registered_new : Registered new := by
  unfold new
  have h := clearCounters_cuts
    { blank with cutList := registeredCuts, cateNamesAndSizes := registeredCates,
                 recursiveCall := false }
  refine registered_of_extends ⟨h.1, h.2.1, ?_⟩ (extends_print _ _)
  intro c hc
  unfold TMap.found
  rw [h.2.2.2 c]
  simp only
  rw [if_pos hc]
  rfl

/-- Every reachable state has the constructor's registries and an entry in
`evtCountTot` for each of the six registered cuts. -/
theorem reachable_registered {s : DMEvtSelect} (h : Reachable s) : Registered s := by
  induction h with
  | construct => exact registered_new
  | passesCut ev c w b _ hstep ih => exact registered_of_extends ih (passesCut_extends hstep)
  | getCategoryNumber ev c w _ ih => exact registered_of_extends ih (extends_getCategoryNumber _ ev c w)
  | clearCounters _ ih => exact registered_clearCounters ih
  | getPassingEvents c _ ih => exact registered_of_extends ih (extends_getPassingEvents _ c)
  | getPassingEventsWt c _ ih => exact registered_of_extends ih (extends_getPassingEventsWt _ c)
  | getTotalEvents c _ ih => exact registered_of_extends ih (extends_getTotalEvents _ c)
  | getTotalEventsWt c _ ih => exact registered_of_extends ih (extends_getTotalEventsWt _ c)
  | getEventsPerCate c i _ ih => exact registered_of_extends ih (extends_getEventsPerCate _ c i)
  | getEventsPerCateWt c i _ ih => exact registered_of_extends ih (extends_getEventsPerCateWt _ c i)
  | printCutflow w _ ih => exact registered_of_extends ih (extends_printCutflow _ w)
  | printCategorization w _ ih => exact registered_of_extends ih (extends_printCategorization _ w)
  | saveCutflow w _ ih => exact registered_of_extends ih (extends_saveCutflow _ w)
  | saveCategorization w _ ih => exact registered_of_extends ih (extends_saveCategorization _ w)

/-! ### The nesting depth of `passesCut` -/

theorem allCutsLoop_congr {call₁ call₂ : DMEvtSelect → String → Outcome}
    (h : ∀ t c, Contains c "all" = false → call₁ t c = call₂ t c) :
    ∀ (l : List String) (s : DMEvtSelect) (p : Bool),
      allCutsLoop call₁ l s p = allCutsLoop call₂ l s p := by
  intro l
  induction l with
  | nil => intro s p; rfl
  | cons c rest ih =>
    intro s p
    unfold allCutsLoop
    cases hc : Contains c "all"
    · simp only [Bool.false_eq_true, if_false]
      rw [h s c hc]
      cases call₂ s c with
      | ret b t => exact ih t _
      | undef => rfl
      | outOfFuel => rfl
    · simp only [if_true]
      exact ih s p

theorem passesCutBody_congr {call₁ call₂ : DMEvtSelect → String → Outcome}
    (h : ∀ t c, Contains c "all" = false → call₁ t c = call₂ t c)
    (s : DMEvtSelect) (ev : EventInfoAuxDyn) (c : String) (w : ℚ) :
    passesCutBody call₁ s ev c w = passesCutBody call₂ s ev c w := by
  unfold passesCutBody allCutsBranch
  simp only [allCutsLoop_congr h]

/-- A call on a name without "all" never makes a nested call. -/
theorem passesCutBody_atomic (call₁ call₂ : DMEvtSelect → String → Outcome)
    (s : DMEvtSelect) (ev : EventInfoAuxDyn) {c : String} (w : ℚ)
    (hc : Contains c "all" = false) :
    passesCutBody call₁ s ev c w = passesCutBody call₂ s ev c w := by
  unfold passesCutBody
  simp only [hc, Bool.false_eq_true, if_false]

/-- Enough fuel gives the result: every depth from two on computes what
`passesCut` computes. -/
theorem passesCutFuel_stable (n : Nat) (s : DMEvtSelect) (ev : EventInfoAuxDyn) (c : String)
    (w : ℚ) : passesCutFuel (n + 2) s ev c w = s.passesCut ev c w := by
  unfold passesCut
  show passesCutBody (fun t c => passesCutFuel (n + 1) t ev c 1) s ev c w
    = passesCutBody (fun t c => passesCutFuel 1 t ev c 1) s ev c w
  apply passesCutBody_congr
  intro t c0 hc0
  exact passesCutBody_atomic _ _ t ev 1 hc0

theorem countStep_ne_outOfFuel {c : String} {w : ℚ} {o : Outcome}
    (h : o ≠ Outcome.outOfFuel) : countStep c w o ≠ Outcome.outOfFuel := by
  cases o with
  | ret p t => cases hr : t.recursiveCall <;> simp [countStep, hr]
  | undef => simp [countStep]
  | outOfFuel => exact absurd rfl h

theorem allCutsLoop_ne_outOfFuel {call : DMEvtSelect → String → Outcome}
    (h : ∀ t c, Contains c "all" = false → call t c ≠ Outcome.outOfFuel) :
    ∀ (l : List String) (s : DMEvtSelect) (p : Bool),
      allCutsLoop call l s p ≠ Outcome.outOfFuel := by
  intro l
  induction l with
  | nil => intro s p; simp [allCutsLoop]
  | cons c rest ih =>
    intro s p
    unfold allCutsLoop
    cases hc : Contains c "all"
    · simp only [Bool.false_eq_true, if_false]
      have hcall := h s c hc
      cases hr : call s c with
      | ret b t => exact ih t _
      | undef => simp
      | outOfFuel => exact absurd hr hcall
    · simp only [if_true]
      exact ih s p

theorem passesCutBody_ne_outOfFuel {call : DMEvtSelect → String → Outcome}
    (h : ∀ t c, Contains c "all" = false → call t c ≠ Outcome.outOfFuel)
    (s : DMEvtSelect) (ev : EventInfoAuxDyn) (c : String) (w : ℚ) :
    passesCutBody call s ev c w ≠ Outcome.outOfFuel := by
  unfold passesCutBody
  generalize s.cutExists c = r
  obtain ⟨x, u⟩ := r
  cases x
  · simp
  · simp only [Bool.not_true, Bool.false_eq_true, if_false]
    apply countStep_ne_outOfFuel
    split_ifs
    any_goals simp
    unfold allCutsBranch
    have hl := allCutsLoop_ne_outOfFuel h u.cutList { u with recursiveCall := true } true
    cases hq : allCutsLoop call u.cutList { u with recursiveCall := true } true with
    | ret b t => simp
    | undef => simp
    | outOfFuel => exact absurd hq hl

/-- The method `passesCut` never exhausts the nesting budget of the model. -/
theorem passesCut_ne_outOfFuel (s : DMEvtSelect) (ev : EventInfoAuxDyn) (c : String) (w : ℚ) :
    s.passesCut ev c w ≠ Outcome.outOfFuel := by
  unfold passesCut
  show passesCutBody (fun t c => passesCutFuel 1 t ev c 1) s ev c w ≠ Outcome.outOfFuel
  apply passesCutBody_ne_outOfFuel
  intro t c0 hc0
  show passesCutBody (fun t c => passesCutFuel 0 t ev c 1) t ev c0 1 ≠ Outcome.outOfFuel
  rw [passesCutBody_atomic _ (fun t _ => Outcome.ret true t) t ev 1 hc0]
  apply passesCutBody_ne_outOfFuel
  intro _ _ _
  simp

/-! ## The cut-flow claims -/

theorem evHighMet_passes :
    photonPtCut evHighMet = true ∧ photonEtaCut evHighMet = true ∧
      diphotonMassCut evHighMet = true ∧ diphotonPtCut evHighMet = true ∧
      diphotonETMissCut evHighMet = true := by
  refine ⟨?_, ?_, ?_, ?_, ?_⟩ <;>
    norm_num [photonPtCut, photonEtaCut, diphotonMassCut, diphotonPtCut, diphotonETMissCut,
      ratioGt, evHighMet]

theorem found_new_of_registered {c : String} (hc : c ∈ registeredCuts) :
    new.evtCountTot.found c = true :=
  registered_new.2.2 c hc

/-- C1 (the code diverges): on a freshly constructed selector (`recursiveCall`
clear) and an event on which the photonPt comparison holds, the call
`passesCut("photonPt", w)` returns `false` at the existence guard and leaves the
total, weighted-total, pass and weighted-pass counters of `photonPt` as they
were, instead of adding 1 and `w` to them. -/
theorem passesCut_photonPt_fresh_counts_nothing :
    photonPtCut evHighMet = true ∧ new.recursiveCall = false ∧
      ∀ w : ℚ, ∃ t, new.passesCut evHighMet "photonPt" w = Outcome.ret false t ∧
        t.evtCountTot = new.evtCountTot ∧ t.evtCountTotWt = new.evtCountTotWt ∧
        t.evtCountPass = new.evtCountPass ∧ t.evtCountPassWt = new.evtCountPassWt := by
  refine ⟨evHighMet_passes.1, rfl, fun w => ⟨_, passesCut_of_found evHighMet w
    (found_new_of_registered (c := "photonPt") (by decide)), rfl, rfl, rfl, rfl⟩⟩

/-- C2 (the code diverges): on a freshly constructed selector and an event on
which all five atomic comparisons hold, `passesCut("allCuts", w)` returns
`false`. -/
theorem passesCut_allCuts_fresh_false :
    (photonPtCut evHighMet = true ∧ photonEtaCut evHighMet = true ∧
      diphotonMassCut evHighMet = true ∧ diphotonPtCut evHighMet = true ∧
      diphotonETMissCut evHighMet = true) ∧
      ∀ w : ℚ, ∃ t, new.passesCut evHighMet "allCuts" w = Outcome.ret false t :=
  ⟨evHighMet_passes,
    fun w => ⟨_, passesCut_of_found evHighMet w
      (found_new_of_registered (c := "allCuts") (by decide))⟩⟩

/-- C3 (the code diverges): on a freshly constructed selector one call
`passesCut("allCuts", w)` returns with the total count and the weighted total of
`allCuts` still 0, for every event and weight: the total is not increased by 1. -/
theorem passesCut_allCuts_fresh_total_unchanged (ev : EventInfoAuxDyn) (w : ℚ) :
    ∃ b t, new.passesCut ev "allCuts" w = Outcome.ret b t ∧
      new.evtCountTot.val "allCuts" = 0 ∧ t.evtCountTot.val "allCuts" = 0 ∧
      new.evtCountTotWt.val "allCuts" = 0 ∧ t.evtCountTotWt.val "allCuts" = 0 := by
  refine ⟨false, _,
    passesCut_of_found ev w (found_new_of_registered (c := "allCuts") (by decide)), ?_, ?_, ?_, ?_⟩
  all_goals decide

/-- C4: in every state reachable from construction, for every event and weight,
one call `passesCut("allCuts", w)` returns and leaves the total, weighted-total,
pass and weighted-pass counters of each of the five atomic cuts exactly as they
were before the call. -/
theorem passesCut_allCuts_frames_atomic (s : DMEvtSelect) (ev : EventInfoAuxDyn) (w : ℚ)
    (hs : Reachable s) :
    ∃ b t, s.passesCut ev "allCuts" w = Outcome.ret b t ∧
      ∀ c ∈ atomicCuts,
        t.evtCountTot c = s.evtCountTot c ∧ t.evtCountTotWt c = s.evtCountTotWt c ∧
        t.evtCountPass c = s.evtCountPass c ∧ t.evtCountPassWt c = s.evtCountPassWt c := by
  have hf : s.evtCountTot.found "allCuts" = true :=
    (reachable_registered hs).2.2 "allCuts" (by decide)
  exact ⟨false, _, passesCut_of_found ev w hf, fun c _ => ⟨rfl, rfl, rfl, rfl⟩⟩

/-- Witness of C4 at the state reached from construction by classifying one
event with `getCategoryNumber("splitETMiss")`. -/
theorem passesCut_allCuts_frames_atomic_witness :
    Reachable (new.getCategoryNumber evHighMet "splitETMiss" 1).2 ∧
    ∃ b t, (new.getCategoryNumber evHighMet "splitETMiss" 1).2.passesCut evLowMet "allCuts" 1
        = Outcome.ret b t ∧
      ∀ c ∈ atomicCuts,
        t.evtCountTot c = (new.getCategoryNumber evHighMet "splitETMiss" 1).2.evtCountTot c ∧
        t.evtCountTotWt c
          = (new.getCategoryNumber evHighMet "splitETMiss" 1).2.evtCountTotWt c ∧
        t.evtCountPass c = (new.getCategoryNumber evHighMet "splitETMiss" 1).2.evtCountPass c ∧
        t.evtCountPassWt c
          = (new.getCategoryNumber evHighMet "splitETMiss" 1).2.evtCountPassWt c :=
  ⟨Reachable.getCategoryNumber evHighMet "splitETMiss" 1 Reachable.construct,
    passesCut_allCuts_frames_atomic _ evLowMet 1
      (Reachable.getCategoryNumber evHighMet "splitETMiss" 1 Reachable.construct)⟩

/-- C5 (the code diverges): after `clearCounters()` on a constructed selector,
one event evaluated with one call `passesCut("photonPt")` (N = 1) leaves the
query `getTotalEvents("photonPt")` at 0, not at N = 1; the query
`getPassingEvents("photonPt")` returns 0 as well. -/
theorem getTotalEvents_after_one_call_is_zero :
    ∃ b t, new.clearCounters.passesCut1 evHighMet "photonPt" = Outcome.ret b t ∧
      (t.getTotalEvents "photonPt").1 = 0 ∧ (t.getPassingEvents "photonPt").1 = 0 := by
  have hf : new.clearCounters.evtCountTot.found "photonPt" = true :=
    (registered_clearCounters registered_new).2.2 "photonPt" (by decide)
  refine ⟨false, _, passesCut_of_found evHighMet 1 hf, ?_, ?_⟩
  · have hq := cutExists_of_found
      (s := new.clearCounters.print [Tok.str "DMEvtSelect: Cut not defined!", Tok.endl]) hf
    simp [getTotalEvents, hq]
  · have hq := cutExists_of_found
      (s := new.clearCounters.print [Tok.str "DMEvtSelect: Cut not defined!", Tok.endl]) hf
    simp [getPassingEvents, hq]

/-! ## The categorisation claims -/

/-- C6 (the code diverges): on a freshly constructed selector, for every event
and weight, `getCategoryNumber("inclusive", w)` returns the index 0 through the
early `return 0` and leaves the selector, hence the count and the weighted count
of ("inclusive", 0), as it was (no entry, read as 0), instead of adding 1 and
`w` to them. -/
theorem getCategoryNumber_inclusive_fresh_counts_nothing (ev : EventInfoAuxDyn) (w : ℚ) :
    new.getCategoryNumber ev "inclusive" w = (0, new) ∧
      new.cateCount.val (Form "inclusive" 0) = 0 ∧
      (new.getCategoryNumber ev "inclusive" w).2.cateCount.val (Form "inclusive" 0) = 0 ∧
      (new.getCategoryNumber ev "inclusive" w).2.cateCountWt.val (Form "inclusive" 0) = 0 := by
  have hq : new.cateExists "inclusive" = (true, new) :=
    cateExists_of_not_found (by decide)
  have hc : Contains "inclusive" "inclusive" = true := by decide
  have h : new.getCategoryNumber ev "inclusive" w = (0, new) := by
    simp [getCategoryNumber, hq, hc]
  refine ⟨h, by decide, ?_, ?_⟩
  · rw [h]; decide
  · rw [h]; rfl

/-- C7 (the code diverges): starting from a freshly constructed selector and
classifying an event with `metref_final = 200` and then one with
`metref_final = 50` under "splitETMiss", the first call returns 0 and the second
returns -1 (not 1), and afterwards `getEventsPerCate("splitETMiss", 0)` and
`getEventsPerCate("splitETMiss", 1)` both return 0 (not 1 and 1). -/
theorem splitETMiss_two_events_diverge :
    (new.getCategoryNumber1 evHighMet "splitETMiss").1 = 0 ∧
    ((new.getCategoryNumber1 evHighMet "splitETMiss").2.getCategoryNumber1 evLowMet
        "splitETMiss").1 = -1 ∧
    (((new.getCategoryNumber1 evHighMet "splitETMiss").2.getCategoryNumber1 evLowMet
        "splitETMiss").2.getEventsPerCate "splitETMiss" 0).1 = 0 ∧
    (((new.getCategoryNumber1 evHighMet "splitETMiss").2.getCategoryNumber1 evLowMet
        "splitETMiss").2.getEventsPerCate "splitETMiss" 1).1 = 0 := by
  refine ⟨?_, ?_, ?_, ?_⟩ <;> decide

/-- C8 (the code diverges): on a freshly constructed selector, for every event
and weight, `getCategoryNumber("undefinedScheme", w)` returns the sentinel -1 and
yet creates the category counter "undefinedScheme_-1", with count 1 and weighted
count `w`, where there was no entry before. -/
theorem getCategoryNumber_unregistered_counts (ev : EventInfoAuxDyn) (w : ℚ) :
    (new.getCategoryNumber ev "undefinedScheme" w).1 = -1 ∧
      new.cateCount (Form "undefinedScheme" (-1)) = none ∧
      new.cateCountWt (Form "undefinedScheme" (-1)) = none ∧
      (new.getCategoryNumber ev "undefinedScheme" w).2.cateCount (Form "undefinedScheme" (-1))
        = some 1 ∧
      (new.getCategoryNumber ev "undefinedScheme" w).2.cateCountWt
        (Form "undefinedScheme" (-1)) = some w := by
  have hq : new.cateExists "undefinedScheme" = (true, new) :=
    cateExists_of_not_found (by decide)
  have h1 : Contains "undefinedScheme" "inclusive" = false := by decide
  have h2 : Contains "undefinedScheme" "splitETMiss" = false := by decide
  have h3 : new.cateCount (Form "undefinedScheme" (-1)) = none := by decide
  have h4 : new.cateCountWt (Form "undefinedScheme" (-1)) = none := by decide
  refine ⟨?_, h3, h4, ?_, ?_⟩
  · simp [getCategoryNumber, hq, h1, h2]
  · simp [getCategoryNumber, hq, h1, h2, print, TMap.incr, TMap.set, TMap.val, h3, wrapInt_one_eq]
  · simp [getCategoryNumber, hq, h1, h2, print, TMap.add, TMap.set, TMap.val, h4]

/-- C9 (the code diverges): immediately after construction the category count
map and the weighted category count map have no entry for ("inclusive", 0), nor
for ("splitETMiss", 0) and ("splitETMiss", 1), although the schemes are
registered with sizes 1 and 2; the only keys initialised are "inclusive_1" and
"splitETMiss_2". -/
theorem new_category_counters_missing :
    new.cateNamesAndSizes = [("inclusive", 1), ("splitETMiss", 2)] ∧
    new.cateCount (Form "inclusive" 0) = none ∧ new.cateCountWt (Form "inclusive" 0) = none ∧
    new.cateCount (Form "splitETMiss" 0) = none ∧
    new.cateCountWt (Form "splitETMiss" 0) = none ∧
    new.cateCount (Form "splitETMiss" 1) = none ∧
    new.cateCountWt (Form "splitETMiss" 1) = none ∧
    new.cateCount (Form "inclusive" 1) = some 0 ∧ new.cateCount (Form "splitETMiss" 2) = some 0 := by
  refine ⟨?_, ?_, ?_, ?_, ?_, ?_, ?_, ?_, ?_⟩ <;> decide

/-- C10 (the code diverges): after `clearCounters()` called from any state the
weighted-total map `evtCountTotWt`, which `passesCut` updates and
`getTotalEventsWt` reads, has no entry at all (the zeros are written to
`evtCountTotalWt`), while `evtCountTot` has the entry 0 for exactly the cuts of
`cutList`. -/
theorem clearCounters_evtCountTotWt_empty (s : DMEvtSelect) :
    (∀ c, s.clearCounters.evtCountTotWt c = none) ∧
      ∀ c, s.clearCounters.evtCountTot c = if c ∈ s.cutList then some 0 else none :=
  ⟨(clearCounters_cuts s).2.2.1, (clearCounters_cuts s).2.2.2⟩

/-! ## Counter values of the operations -/

theorem val_set {V : Type} [Zero V] (m : TMap V) (k : String) (v : V) :
    (m.set k v).val = fun j => if j = k then v else m.val j := by
  funext j
  unfold TMap.val TMap.set
  by_cases h : j = k <;> simp [h]

theorem val_touch {V : Type} [Zero V] (m : TMap V) (k : String) : (m.touch k).val = m.val := by
  unfold TMap.touch
  rw [val_set]
  funext j
  by_cases h : j = k <;> simp [h]

theorem val_add {V : Type} [Zero V] [Add V] (m : TMap V) (k : String) (d : V) :
    (m.add k d).val = bump m.val k d := by
  unfold TMap.add bump
  rw [val_set]
  funext j
  by_cases h : j = k <;> simp [h]

theorem val_incr (m : TMap Int) (k : String) : (m.incr k).val = bumpInt m.val k := by
  unfold TMap.incr bumpInt
  rw [val_set]
  funext j
  by_cases h : j = k <;> simp [h]

theorem val_empty {V : Type} [Zero V] : (TMap.empty : TMap V).val = fun _ => 0 := rfl

theorem view_print (s : DMEvtSelect) (toks : List Tok) : view (s.print toks) = view s := rfl

theorem view_cutExists (s : DMEvtSelect) (c : String) : view (s.cutExists c).2 = view s := by
  cases h : s.evtCountTot.found c
  · rw [cutExists_of_not_found h]
  · rw [cutExists_of_found h]; rfl

theorem view_cateExists (s : DMEvtSelect) (c : String) : view (s.cateExists c).2 = view s := by
  cases h : s.cateCount.found (Form0 c)
  · rw [cateExists_of_not_found h]
  · rw [cateExists_of_found h]; rfl

theorem view_getPassingEvents (s : DMEvtSelect) (c : String) :
    view (s.getPassingEvents c).2 = view s := by
  unfold getPassingEvents
  have h := view_cutExists s c
  generalize s.cutExists c = r at h
  obtain ⟨x, u⟩ := r
  cases x
  · exact h
  · simp only [if_true]
    rw [← h]
    simp only [view, val_touch]

theorem view_getPassingEventsWt (s : DMEvtSelect) (c : String) :
    view (s.getPassingEventsWt c).2 = view s := by
  unfold getPassingEventsWt
  have h := view_cutExists s c
  generalize s.cutExists c = r at h
  obtain ⟨x, u⟩ := r
  cases x
  · exact h
  · simp only [if_true]
    rw [← h]
    simp only [view, val_touch]

theorem view_getTotalEvents (s : DMEvtSelect) (c : String) :
    view (s.getTotalEvents c).2 = view s := by
  unfold getTotalEvents
  have h := view_cutExists s c
  generalize s.cutExists c = r at h
  obtain ⟨x, u⟩ := r
  cases x
  · exact h
  · simp only [if_true]
    rw [← h]
    simp only [view, val_touch]

theorem view_getTotalEventsWt (s : DMEvtSelect) (c : String) :
    view (s.getTotalEventsWt c).2 = view s := by
  unfold getTotalEventsWt
  have h := view_cutExists s c
  generalize s.cutExists c = r at h
  obtain ⟨x, u⟩ := r
  cases x
  · exact h
  · simp only [if_true]
    rw [← h]
    simp only [view, val_touch]

theorem view_getEventsPerCate (s : DMEvtSelect) (c : String) (i : Int) :
    view (s.getEventsPerCate c i).2 = view s := by
  unfold getEventsPerCate
  have h := view_cateExists s c
  generalize s.cateExists c = r at h
  obtain ⟨x, u⟩ := r
  cases x
  · exact h
  · simp only [if_true]
    rw [← h]
    simp only [view, val_touch]

theorem view_getEventsPerCateWt (s : DMEvtSelect) (c : String) (i : Int) :
    view (s.getEventsPerCateWt c i).2 = view s := by
  unfold getEventsPerCateWt
  have h := view_cateExists s c
  generalize s.cateExists c = r at h
  obtain ⟨x, u⟩ := r
  cases x
  · exact h
  · simp only [if_true]
    rw [← h]
    simp only [view, val_touch]

/-! ### Reports -/

theorem cutflowRow_spec (w : Bool) (s : DMEvtSelect) (c : String) :
    (cutflowRow w s c).1 = rowToks w (view s) c ∧ view (cutflowRow w s c).2 = view s := by
  unfold cutflowRow rowToks
  cases w
  · simp only [Bool.false_eq_true, if_false, view, val_touch, and_self]
  · simp only [if_true, view, val_touch, and_self]

theorem cutflowRows_spec (w : Bool) :
    ∀ (l : List String) (acc : List Tok × DMEvtSelect),
      (cutflowRows w l acc).1 = acc.1 ++ rowsToks w (view acc.2) l ∧
        view (cutflowRows w l acc).2 = view acc.2 := by
  intro l
  induction l with
  | nil => intro acc; simp [cutflowRows, rowsToks]
  | cons c rest ih =>
    intro acc
    obtain ⟨h1, h2⟩ := cutflowRow_spec w acc.2 c
    obtain ⟨i1, i2⟩ := ih (acc.1 ++ (cutflowRow w acc.2 c).1, (cutflowRow w acc.2 c).2)
    simp only [cutflowRows, rowsToks]
    refine ⟨?_, ?_⟩
    · rw [i1]
      simp only [h1, h2, List.append_assoc]
    · rw [i2]
      exact h2

theorem view_saveCutflow (s : DMEvtSelect) (w : Bool) : view (s.saveCutflow w).2 = view s :=
  (cutflowRows_spec w s.cutList ([], s)).2

theorem saveCutflow_toks (s : DMEvtSelect) (w : Bool) :
    (s.saveCutflow w).1 = rowsToks w (view s) s.cutList := by
  have h := (cutflowRows_spec w s.cutList ([], s)).1
  simpa [saveCutflow] using h

theorem view_printCutflow (s : DMEvtSelect) (w : Bool) : view (s.printCutflow w) = view s := by
  unfold printCutflow
  simp only [view_print]
  exact (cutflowRows_spec w _ ([], s.print [Tok.str "Printing Cutflow: ", Tok.endl])).2

theorem cout_cutflowRow (w : Bool) (s : DMEvtSelect) (c : String) :
    (cutflowRow w s c).2.cout = s.cout := by
  unfold cutflowRow
  cases w <;> rfl

theorem cout_cutflowRows (w : Bool) :
    ∀ (l : List String) (acc : List Tok × DMEvtSelect),
      (cutflowRows w l acc).2.cout = acc.2.cout := by
  intro l
  induction l with
  | nil => intro acc; rfl
  | cons c rest ih =>
    intro acc
    simp only [cutflowRows]
    rw [ih]
    exact cout_cutflowRow w acc.2 c

/-- What `printCutflow` appends to `std::cout`: the header line and the rows
computed from the counter values of the state. -/
theorem printCutflow_cout (s : DMEvtSelect) (w : Bool) :
    (s.printCutflow w).cout
      = s.cout ++ ([Tok.str "Printing Cutflow: ", Tok.endl] ++ rowsToks w (view s) s.cutList) := by
  unfold printCutflow
  have h := cutflowRows_spec w (s.print [Tok.str "Printing Cutflow: ", Tok.endl]).cutList
    ([], s.print [Tok.str "Printing Cutflow: ", Tok.endl])
  have hc := cout_cutflowRows w (s.print [Tok.str "Printing Cutflow: ", Tok.endl]).cutList
    ([], s.print [Tok.str "Printing Cutflow: ", Tok.endl])
  simp only [print, List.nil_append] at h hc ⊢
  rw [hc, h.1]
  simp [view, List.append_assoc]

theorem cateCell_view (w : Bool) (it : String × Int) (s : DMEvtSelect) :
    view (cateCell w it s).2 = view s := by
  unfold cateCell
  cases w
  · simp only [Bool.false_eq_true, if_false, view, val_touch]
  · simp only [if_true, view, val_touch]

theorem cateCells_view (w : Bool) (it : String × Int) :
    ∀ (n : Nat) (acc : List Tok × DMEvtSelect),
      view (cateCells w it n acc).2 = view acc.2 := by
  intro n
  induction n with
  | zero => intro acc; rfl
  | succ n ih =>
    intro acc
    simp only [cateCells]
    rw [ih]
    exact cateCell_view w it acc.2

theorem cateRows_view (w : Bool) :
    ∀ (l : List (String × Int)) (acc : List Tok × DMEvtSelect),
      view (cateRows w l acc).2 = view acc.2 := by
  intro l
  induction l with
  | nil => intro acc; rfl
  | cons it rest ih =>
    intro acc
    simp only [cateRows]
    rw [ih]
    exact cateCells_view w it _ _

theorem view_saveCategorization (s : DMEvtSelect) (w : Bool) :
    view (s.saveCategorization w).2 = view s :=
  cateRows_view w s.cateNamesAndSizes ([], s)

theorem view_printCategorization (s : DMEvtSelect) (w : Bool) :
    view (s.printCategorization w) = view s := by
  unfold printCategorization
  simp only [view_print]
  exact cateRows_view w _ ([], s.print [Tok.str "Printing Categories: ", Tok.endl])

/-! ### Categorisation -/

/-- The effect of `getCategoryNumber` on the counter values: nothing, or one
category key gets 1 more and `w` more. -/
theorem view_getCategoryNumber (s : DMEvtSelect) (ev : EventInfoAuxDyn) (c : String) (w : ℚ) :
    view (s.getCategoryNumber ev c w).2 = view s ∨
      ∃ k, view (s.getCategoryNumber ev c w).2 = cateView (view s) k w := by
  unfold getCategoryNumber
  have h := view_cateExists s c
  generalize s.cateExists c = r at h
  obtain ⟨x, u⟩ := r
  cases x
  · exact Or.inl h
  · cases Contains c "inclusive"
    · right
      simp only [Bool.not_true, Bool.false_eq_true, if_false]
      refine ⟨Form c (if Contains c "splitETMiss" then
        (if decide (180 < ev.metref_final) then 0 else 1) else -1), ?_⟩
      rw [← h]
      split_ifs <;> simp only [view, print, cateView, val_add, val_incr]
    · exact Or.inl h

/-! ### Resetting -/

theorem cateOnly_refl (s : DMEvtSelect) : CateOnly s s := rfl

theorem cateOnly_trans {s t u : DMEvtSelect} (h₁ : CateOnly s t) (h₂ : CateOnly t u) :
    CateOnly s u := by
  unfold CateOnly at *
  calc u = { t with cateCount := u.cateCount, cateCountWt := u.cateCountWt } := h₂
    _ = { s with cateCount := u.cateCount, cateCountWt := u.cateCountWt } := by rw [h₁]

/-- Both category maps hold nothing but zeros. -/
theorem clearCateStep_zero (it : String × Int) (s : DMEvtSelect)
    (h : s.cateCount.val = (fun _ => 0) ∧ s.cateCountWt.val = (fun _ => 0)) :
    (clearCateStep it s).cateCount.val = (fun _ => 0) ∧
      (clearCateStep it s).cateCountWt.val = (fun _ => 0) := by
  unfold clearCateStep
  simp only [val_set, h.1, h.2, ite_self, and_self]

theorem clearCateLoop_spec (s : DMEvtSelect) (it : String × Int)
    (h : s.cateCount.val = (fun _ => 0) ∧ s.cateCountWt.val = (fun _ => 0)) :
    CateOnly s (clearCateLoop s it) ∧
      (clearCateLoop s it).cateCount.val = (fun _ => 0) ∧
      (clearCateLoop s it).cateCountWt.val = (fun _ => 0) := by
  unfold clearCateLoop
  generalize List.range it.2.toNat = l
  induction l generalizing s with
  | nil => exact ⟨cateOnly_refl s, h⟩
  | cons j rest ih =>
    rw [List.foldl_cons]
    obtain ⟨i1, i2⟩ := ih (clearCateStep it s) (clearCateStep_zero it s h)
    exact ⟨cateOnly_trans (s := s) (t := clearCateStep it s) rfl i1, i2⟩

theorem foldl_clearCateLoop_spec (l : List (String × Int)) (s : DMEvtSelect)
    (h : s.cateCount.val = (fun _ => 0) ∧ s.cateCountWt.val = (fun _ => 0)) :
    CateOnly s (l.foldl clearCateLoop s) ∧
      (l.foldl clearCateLoop s).cateCount.val = (fun _ => 0) ∧
      (l.foldl clearCateLoop s).cateCountWt.val = (fun _ => 0) := by
  induction l generalizing s with
  | nil => exact ⟨cateOnly_refl s, h⟩
  | cons it rest ih =>
    rw [List.foldl_cons]
    obtain ⟨h1, h2⟩ := clearCateLoop_spec s it h
    obtain ⟨i1, i2⟩ := ih (clearCateLoop s it) h2
    exact ⟨cateOnly_trans h1 i1, i2⟩

/-- The first loop of `clearCounters`, on the members it does not reset to the
entry 0 for the cuts of the list. -/
theorem foldl_clearCutStep_rest (l : List String) (s : DMEvtSelect) :
    (l.foldl clearCutStep s).recursiveCall = s.recursiveCall ∧
    (l.foldl clearCutStep s).evtCountTotal = s.evtCountTotal ∧
    (l.foldl clearCutStep s).cateCount = s.cateCount ∧
    (l.foldl clearCutStep s).cateCountWt = s.cateCountWt ∧
    (l.foldl clearCutStep s).cout = s.cout ∧
    (∀ k, (l.foldl clearCutStep s).evtCountTotalWt k
        = if k ∈ l then some 0 else s.evtCountTotalWt k) := by
  induction l generalizing s with
  | nil => simp
  | cons c rest ih =>
    rw [List.foldl_cons]
    obtain ⟨h1, h2, h3, h4, h5, h6⟩ := ih (clearCutStep s c)
    refine ⟨h1, h2, h3, h4, h5, ?_⟩
    intro k
    rw [h6 k]
    by_cases hk : k ∈ rest
    · simp [hk]
    · by_cases hc : k = c <;> simp [hk, hc, clearCutStep, TMap.set]

/-- The counter values after `clearCounters`. -/
theorem view_clearCounters (s : DMEvtSelect) :
    view s.clearCounters = clearView s.cutList (view s) := by
  obtain ⟨a1, -, a3, a4, a5, a6⟩ := foldl_clearCutStep s.clearMaps.cutList s.clearMaps
  obtain ⟨b1, b2, b3, b4, -, b6⟩ := foldl_clearCutStep_rest s.clearMaps.cutList s.clearMaps
  have hz : (s.clearMaps.cutList.foldl clearCutStep s.clearMaps).cateCount.val = (fun _ => 0) ∧
      (s.clearMaps.cutList.foldl clearCutStep s.clearMaps).cateCountWt.val = (fun _ => 0) := by
    rw [b3, b4]
    exact ⟨rfl, rfl⟩
  obtain ⟨c1, c2, c3⟩ := foldl_clearCateLoop_spec
    (s.clearMaps.cutList.foldl clearCutStep s.clearMaps).cateNamesAndSizes
    (s.clearMaps.cutList.foldl clearCutStep s.clearMaps) hz
  show view (List.foldl clearCateLoop (List.foldl clearCutStep s.clearMaps s.clearMaps.cutList)
    (List.foldl clearCutStep s.clearMaps s.clearMaps.cutList).cateNamesAndSizes) = _
  generalize List.foldl clearCateLoop (List.foldl clearCutStep s.clearMaps s.clearMaps.cutList)
    (List.foldl clearCutStep s.clearMaps s.clearMaps.cutList).cateNamesAndSizes = u at c1 c2 c3
  generalize List.foldl clearCutStep s.clearMaps s.clearMaps.cutList = t at *
  unfold CateOnly at c1
  unfold view clearView
  rw [c2, c3]
  have e1 : u.recursiveCall = s.recursiveCall := by rw [c1]; exact b1
  have e2 : u.evtCountPass.val = fun _ => 0 := by
    rw [c1]; funext k; show (t.evtCountPass k).getD 0 = 0; rw [a5 k]; split_ifs <;> rfl
  have e3 : u.evtCountPassWt.val = fun _ => 0 := by
    rw [c1]; funext k; show (t.evtCountPassWt k).getD 0 = 0; rw [a6 k]; split_ifs <;> rfl
  have e4 : u.evtCountTot.val = fun _ => 0 := by
    rw [c1]; funext k; show (t.evtCountTot k).getD 0 = 0; rw [a4 k]; split_ifs <;> rfl
  have e5 : u.evtCountTotWt.val = fun _ => 0 := by
    rw [c1]; show t.evtCountTotWt.val = _; rw [a3]; rfl
  have e6 : u.evtCountTotal.val = s.evtCountTotal.val := by
    rw [c1]; show t.evtCountTotal.val = _; rw [b2]; rfl
  have e7 : u.evtCountTotalWt.val = fun k => if k ∈ s.cutList then 0 else s.evtCountTotalWt.val k := by
    rw [c1]; funext k; show (t.evtCountTotalWt k).getD 0 = _; rw [b6 k]
    show (if k ∈ s.cutList then some 0 else s.evtCountTotalWt k).getD 0
      = if k ∈ s.cutList then 0 else s.evtCountTotalWt.val k
    by_cases hk : k ∈ s.cutList <;> simp [hk, TMap.val]
  rw [e1, e2, e3, e4, e5, e6, e7]

/-! ### Cuts -/

theorem quiet_refl (s : DMEvtSelect) : Quiet s s := rfl

theorem quiet_trans {s t u : DMEvtSelect} (h₁ : Quiet s t) (h₂ : Quiet t u) : Quiet s u := by
  unfold Quiet at *
  calc u = { t with recursiveCall := u.recursiveCall, cout := u.cout } := h₂
    _ = { s with recursiveCall := u.recursiveCall, cout := u.cout } := by rw [h₁]

theorem quiet_print (s : DMEvtSelect) (toks : List Tok) : Quiet s (s.print toks) := rfl

theorem view_of_quiet {s t : DMEvtSelect} (h : Quiet s t) (hf : t.recursiveCall = s.recursiveCall) :
    view t = view s := by
  unfold Quiet at h
  rw [h, hf]
  rfl

theorem view_countEvent (u : DMEvtSelect) (c : String) (w : ℚ) (b : Bool) :
    view (countEvent u c w b) = countView (view u) c w b := by
  cases b <;> simp [countEvent, view, countView, val_add, val_incr]

/-- A nested call, made while `recursiveCall` is set on a name without "all",
can only return at the existence guard: it prints the diagnostic and changes
nothing else. -/
theorem passesCutFuel_nested (ev : EventInfoAuxDyn) (n : Nat) (t : DMEvtSelect) (c : String)
    (w : ℚ) (b : Bool) (u : DMEvtSelect) (hf : t.recursiveCall = true)
    (hc : Contains c "all" = false) (h : passesCutFuel n t ev c w = Outcome.ret b u) :
    b = false ∧ u = t.print [Tok.str "DMEvtSelect: Cut not defined!", Tok.endl] := by
  cases n with
  | zero => simp [passesCutFuel] at h
  | succ n =>
    unfold passesCutFuel passesCutBody at h
    cases hx : t.evtCountTot.found c
    · rw [cutExists_of_not_found hx] at h
      simp only [Bool.not_true, Bool.false_eq_true, if_false, hc] at h
      obtain ⟨v, hv, hvf, -⟩ := countStep_ret h
      split_ifs at hv <;>
        (simp only [Outcome.ret.injEq] at hv
         rw [← hv.2, hf] at hvf
         cases hvf)
    · rw [cutExists_of_found hx] at h
      simp only [Bool.not_false, if_true, Outcome.ret.injEq] at h
      exact ⟨h.1.symm, h.2.symm⟩

theorem allCutsLoop_quiet {call : DMEvtSelect → String → Outcome}
    (hcall : ∀ t c b u, t.recursiveCall = true → Contains c "all" = false →
      call t c = Outcome.ret b u → Quiet t u ∧ u.recursiveCall = true) :
    ∀ (l : List String) (s : DMEvtSelect) (p b : Bool) (t : DMEvtSelect),
      s.recursiveCall = true → allCutsLoop call l s p = Outcome.ret b t →
      Quiet s t ∧ t.recursiveCall = true := by
  intro l
  induction l with
  | nil =>
    intro s p b t hf h
    simp only [allCutsLoop, Outcome.ret.injEq] at h
    rw [← h.2]
    exact ⟨quiet_refl s, hf⟩
  | cons c rest ih =>
    intro s p b t hf h
    unfold allCutsLoop at h
    cases hc : Contains c "all"
    · simp only [hc, Bool.false_eq_true, if_false] at h
      cases hr : call s c with
      | ret b0 u =>
        rw [hr] at h
        obtain ⟨q1, f1⟩ := hcall s c b0 u hf hc hr
        obtain ⟨q2, f2⟩ := ih u _ b t f1 h
        exact ⟨quiet_trans q1 q2, f2⟩
      | undef => rw [hr] at h; cases h
      | outOfFuel => rw [hr] at h; cases h
    · simp only [hc, if_true] at h
      exact ih s p b t hf h

theorem allCutsBranch_quiet {call : DMEvtSelect → String → Outcome}
    (hcall : ∀ t c b u, t.recursiveCall = true → Contains c "all" = false →
      call t c = Outcome.ret b u → Quiet t u ∧ u.recursiveCall = true)
    {s : DMEvtSelect} {b : Bool} {t : DMEvtSelect}
    (h : allCutsBranch call s = Outcome.ret b t) : Quiet s t ∧ t.recursiveCall = false := by
  unfold allCutsBranch at h
  cases hr : allCutsLoop call s.cutList { s with recursiveCall := true } true with
  | ret p u =>
    rw [hr] at h
    simp only [Outcome.ret.injEq] at h
    obtain ⟨q, -⟩ := allCutsLoop_quiet hcall _ _ _ _ _ rfl hr
    rw [← h.2]
    refine ⟨?_, rfl⟩
    have q0 : Quiet s { s with recursiveCall := true } := rfl
    have q2 : Quiet u { u with recursiveCall := false } := rfl
    exact quiet_trans (quiet_trans q0 q) q2
  | undef => rw [hr] at h; cases h
  | outOfFuel => rw [hr] at h; cases h

/-- What a call of `passesCut` that returns does: at the existence guard it
returns `false` and only prints; otherwise the name had no entry in
`evtCountTot` and the counting step runs on a state that differs from the
initial one in the output only. -/
theorem passesCutBody_cases {call : DMEvtSelect → String → Outcome}
    (hcall : ∀ t c b u, t.recursiveCall = true → Contains c "all" = false →
      call t c = Outcome.ret b u → Quiet t u ∧ u.recursiveCall = true)
    {s : DMEvtSelect} {ev : EventInfoAuxDyn} {c : String} {w : ℚ} {b : Bool} {t : DMEvtSelect}
    (h : passesCutBody call s ev c w = Outcome.ret b t) :
    (s.evtCountTot.found c = true ∧ b = false ∧
        t = s.print [Tok.str "DMEvtSelect: Cut not defined!", Tok.endl]) ∨
      (s.evtCountTot.found c = false ∧
        ∃ u, Quiet s u ∧ u.recursiveCall = false ∧ t = countEvent u c w b) := by
  unfold passesCutBody at h
  cases hx : s.evtCountTot.found c
  · right
    refine ⟨rfl, ?_⟩
    rw [cutExists_of_not_found hx] at h
    simp only [Bool.not_true, Bool.false_eq_true, if_false] at h
    obtain ⟨v, hv, hvf, ht⟩ := countStep_ret h
    refine ⟨v, ?_, hvf, ht⟩
    split_ifs at hv <;>
      first
      | (simp only [Outcome.ret.injEq] at hv
         rw [← hv.2]
         exact quiet_refl s)
      | exact (allCutsBranch_quiet hcall hv).1
  · left
    rw [cutExists_of_found hx] at h
    simp only [Bool.not_false, if_true, Outcome.ret.injEq] at h
    exact ⟨rfl, h.1.symm, h.2.symm⟩

theorem passesCut_cases {s : DMEvtSelect} {ev : EventInfoAuxDyn} {c : String} {w : ℚ}
    {b : Bool} {t : DMEvtSelect} (h : s.passesCut ev c w = Outcome.ret b t) :
    (s.evtCountTot.found c = true ∧ b = false ∧
        t = s.print [Tok.str "DMEvtSelect: Cut not defined!", Tok.endl]) ∨
      (s.evtCountTot.found c = false ∧
        ∃ u, Quiet s u ∧ u.recursiveCall = false ∧ t = countEvent u c w b) := by
  unfold passesCut at h
  refine @passesCutBody_cases (fun t c => passesCutFuel 1 t ev c 1) ?_ s ev c w b t h
  intro t0 c0 b0 u0 hf hc hr
  obtain ⟨-, hu⟩ := passesCutFuel_nested ev 1 t0 c0 1 b0 u0 hf hc hr
  rw [hu]
  exact ⟨quiet_print t0 _, hf⟩

/-- The effect on the counter values of a call of `passesCut` that returns,
made while `recursiveCall` is clear. -/
theorem view_passesCut {s : DMEvtSelect} {ev : EventInfoAuxDyn} {c : String} {w : ℚ}
    {b : Bool} {t : DMEvtSelect} (h : s.passesCut ev c w = Outcome.ret b t)
    (hf : s.recursiveCall = false) :
    (s.evtCountTot.found c = true ∧ b = false ∧ view t = view s) ∨
      (s.evtCountTot.found c = false ∧ view t = countView (view s) c w b) := by
  rcases passesCut_cases h with ⟨h1, h2, h3⟩ | ⟨h1, u, q, uf, ht⟩
  · left
    rw [h3]
    exact ⟨h1, h2, rfl⟩
  · right
    rw [ht, view_countEvent, view_of_quiet q (uf.trans hf.symm)]
    exact ⟨h1, rfl⟩

/-! ## Invariants of the reachable states -/

theorem reachableWith_reachable {P : ℚ → Prop} {s : DMEvtSelect} (h : ReachableWith P s) :
    Reachable s := by
  induction h with
  | construct => exact Reachable.construct
  | passesCut ev c w b _ _ hstep ih => exact Reachable.passesCut ev c w b ih hstep
  | getCategoryNumber ev c w _ _ ih => exact Reachable.getCategoryNumber ev c w ih
  | clearCounters _ ih => exact Reachable.clearCounters ih
  | getPassingEvents c _ ih => exact Reachable.getPassingEvents c ih
  | getPassingEventsWt c _ ih => exact Reachable.getPassingEventsWt c ih
  | getTotalEvents c _ ih => exact Reachable.getTotalEvents c ih
  | getTotalEventsWt c _ ih => exact Reachable.getTotalEventsWt c ih
  | getEventsPerCate c i _ ih => exact Reachable.getEventsPerCate c i ih
  | getEventsPerCateWt c i _ ih => exact Reachable.getEventsPerCateWt c i ih
  | printCutflow w _ ih => exact Reachable.printCutflow w ih
  | printCategorization w _ ih => exact Reachable.printCategorization w ih
  | saveCutflow w _ ih => exact Reachable.saveCutflow w ih
  | saveCategorization w _ ih => exact Reachable.saveCategorization w ih

theorem reachable_reachableWith {s : DMEvtSelect} (h : Reachable s) :
    ReachableWith (fun _ => True) s := by
  induction h with
  | construct => exact ReachableWith.construct
  | passesCut ev c w b _ hstep ih => exact ReachableWith.passesCut ev c w b trivial ih hstep
  | getCategoryNumber ev c w _ ih => exact ReachableWith.getCategoryNumber ev c w trivial ih
  | clearCounters _ ih => exact ReachableWith.clearCounters ih
  | getPassingEvents c _ ih => exact ReachableWith.getPassingEvents c ih
  | getPassingEventsWt c _ ih => exact ReachableWith.getPassingEventsWt c ih
  | getTotalEvents c _ ih => exact ReachableWith.getTotalEvents c ih
  | getTotalEventsWt c _ ih => exact ReachableWith.getTotalEventsWt c ih
  | getEventsPerCate c i _ ih => exact ReachableWith.getEventsPerCate c i ih
  | getEventsPerCateWt c i _ ih => exact ReachableWith.getEventsPerCateWt c i ih
  | printCutflow w _ ih => exact ReachableWith.printCutflow w ih
  | printCategorization w _ ih => exact ReachableWith.printCategorization w ih
  | saveCutflow w _ ih => exact ReachableWith.saveCutflow w ih
  | saveCategorization w _ ih => exact ReachableWith.saveCategorization w ih

/-- The counter values of the freshly constructed selector: the flag is clear
and every counter reads 0. -/
theorem view_new :
    view new = clearView registeredCuts
      { flag := false, pass := fun _ => 0, passWt := fun _ => 0, tot := fun _ => 0,
        totWt := fun _ => 0, total := fun _ => 0, totalWt := fun _ => 0, cate := fun _ => 0,
        cateWt := fun _ => 0 } := by
  unfold new
  simp only [view_print, view_clearCounters]
  rfl

/-- The property `Uncounted` passes to a state with the same cut counter
values that keeps the entries of `evtCountTot`. -/
theorem uncounted_of_view {s t : DMEvtSelect} (hK : Uncounted s) (he : Extends s t)
    (h1 : (view t).pass = (view s).pass) (h2 : (view t).passWt = (view s).passWt)
    (h3 : (view t).tot = (view s).tot) (h4 : (view t).totWt = (view s).totWt) :
    Uncounted t := by
  intro c hc
  have hs : s.evtCountTot.found c = false := by
    cases hx : s.evtCountTot.found c
    · rfl
    · rw [he.2.2 c hx] at hc; cases hc
  obtain ⟨k1, k2, k3, k4⟩ := hK c hs
  exact ⟨(congrFun h1 c).trans k1, (congrFun h2 c).trans k2, (congrFun h3 c).trans k3,
    (congrFun h4 c).trans k4⟩

theorem uncounted_of_view_eq {s t : DMEvtSelect} (hK : Uncounted s) (he : Extends s t)
    (hv : view t = view s) : Uncounted t :=
  uncounted_of_view hK he (by rw [hv]) (by rw [hv]) (by rw [hv]) (by rw [hv])

theorem uncounted_clearCounters (s : DMEvtSelect) : Uncounted s.clearCounters := by
  intro c _
  have h := view_clearCounters s
  exact ⟨congrFun (congrArg Counts.pass h) c, congrFun (congrArg Counts.passWt h) c,
    congrFun (congrArg Counts.tot h) c, congrFun (congrArg Counts.totWt h) c⟩

theorem countView_other (v : Counts) {c j : String} (w : ℚ) (b : Bool) (h : j ≠ c) :
    (countView v c w b).pass j = v.pass j ∧ (countView v c w b).passWt j = v.passWt j ∧
      (countView v c w b).tot j = v.tot j ∧ (countView v c w b).totWt j = v.totWt j := by
  cases b <;> simp [countView, bump, bumpInt, h]

/-- The counter values at the counted name `c` after the counting step, when
its four counters were 0 before. -/
theorem countView_same (v : Counts) (c : String) (w : ℚ) (b : Bool)
    (h : v.pass c = 0 ∧ v.passWt c = 0 ∧ v.tot c = 0 ∧ v.totWt c = 0) :
    (countView v c w b).tot c = 1 ∧ (countView v c w b).totWt c = w ∧
      (countView v c w b).pass c = (if b then 1 else 0) ∧
      (countView v c w b).passWt c = (if b then w else 0) := by
  obtain ⟨h1, h2, h3, h4⟩ := h
  cases b <;> simp [countView, bump, bumpInt, h1, h2, h3, h4, wrapInt_one_eq]

theorem uncounted_countEvent {s u : DMEvtSelect} (hK : Uncounted s) (hq : Quiet s u)
    (c : String) (w : ℚ) (b : Bool) : Uncounted (countEvent u c w b) := by
  have hu : view (countEvent u c w b) = countView (view u) c w b := view_countEvent u c w b
  have e1 : u.evtCountPass = s.evtCountPass := by unfold Quiet at hq; rw [hq]
  have e2 : u.evtCountPassWt = s.evtCountPassWt := by unfold Quiet at hq; rw [hq]
  have e3 : u.evtCountTot = s.evtCountTot := by unfold Quiet at hq; rw [hq]
  have e4 : u.evtCountTotWt = s.evtCountTotWt := by unfold Quiet at hq; rw [hq]
  intro j hj
  have hfound : (countEvent u c w b).evtCountTot.found j
      = (decide (j = c) || u.evtCountTot.found j) := by
    cases b <;> exact TMap.found_set _ _ _ _
  rw [hfound, Bool.or_eq_false_iff] at hj
  have hjc : j ≠ c := by simpa using hj.1
  obtain ⟨k1, k2, k3, k4⟩ := hK j (by rw [← e3]; exact hj.2)
  obtain ⟨o1, o2, o3, o4⟩ := countView_other (view u) w b hjc
  have p1 : (countEvent u c w b).evtCountPass.val j = u.evtCountPass.val j :=
    (congrFun (congrArg Counts.pass hu) j).trans o1
  have p2 : (countEvent u c w b).evtCountPassWt.val j = u.evtCountPassWt.val j :=
    (congrFun (congrArg Counts.passWt hu) j).trans o2
  have p3 : (countEvent u c w b).evtCountTot.val j = u.evtCountTot.val j :=
    (congrFun (congrArg Counts.tot hu) j).trans o3
  have p4 : (countEvent u c w b).evtCountTotWt.val j = u.evtCountTotWt.val j :=
    (congrFun (congrArg Counts.totWt hu) j).trans o4
  rw [e1] at p1
  rw [e2] at p2
  rw [e3] at p3
  rw [e4] at p4
  exact ⟨p1.trans k1, p2.trans k2, p3.trans k3, p4.trans k4⟩

/-- In every reachable state the flag `recursiveCall` is clear and the cut
names without an entry in `evtCountTot` have all their cut counters at 0: an
event is counted under a name only while the name has no entry, and the count
creates the entry. -/
theorem reachable_flag_uncounted {s : DMEvtSelect} (h : Reachable s) :
    s.recursiveCall = false ∧ Uncounted s := by
  induction h with
  | construct =>
    refine ⟨rfl, ?_⟩
    exact uncounted_of_view_eq (uncounted_clearCounters _) (extends_print _ _) rfl
  | @passesCut s t ev c w b hs hstep ih =>
    rcases passesCut_cases hstep with ⟨-, -, ht⟩ | ⟨-, u, hq, hu, ht⟩
    · rw [ht]
      exact ⟨ih.1, uncounted_of_view_eq ih.2 (extends_print _ _) rfl⟩
    · rw [ht]
      refine ⟨?_, uncounted_countEvent ih.2 hq c w b⟩
      cases b <;> exact hu
  | @getCategoryNumber s ev c w hs ih =>
    have he := extends_getCategoryNumber s ev c w
    rcases view_getCategoryNumber s ev c w with hv | ⟨k, hv⟩
    · exact ⟨(congrArg Counts.flag hv).trans ih.1, uncounted_of_view_eq ih.2 he hv⟩
    · exact ⟨(congrArg Counts.flag hv).trans ih.1,
        uncounted_of_view ih.2 he (by rw [hv]; rfl) (by rw [hv]; rfl) (by rw [hv]; rfl)
          (by rw [hv]; rfl)⟩
  | @clearCounters s hs ih =>
    exact ⟨(congrArg Counts.flag (view_clearCounters s)).trans ih.1, uncounted_clearCounters s⟩
  | @getPassingEvents s c hs ih =>
    exact ⟨(congrArg Counts.flag (view_getPassingEvents s c)).trans ih.1,
      uncounted_of_view_eq ih.2 (extends_getPassingEvents s c) (view_getPassingEvents s c)⟩
  | @getPassingEventsWt s c hs ih =>
    exact ⟨(congrArg Counts.flag (view_getPassingEventsWt s c)).trans ih.1,
      uncounted_of_view_eq ih.2 (extends_getPassingEventsWt s c) (view_getPassingEventsWt s c)⟩
  | @getTotalEvents s c hs ih =>
    exact ⟨(congrArg Counts.flag (view_getTotalEvents s c)).trans ih.1,
      uncounted_of_view_eq ih.2 (extends_getTotalEvents s c) (view_getTotalEvents s c)⟩
  | @getTotalEventsWt s c hs ih =>
    exact ⟨(congrArg Counts.flag (view_getTotalEventsWt s c)).trans ih.1,
      uncounted_of_view_eq ih.2 (extends_getTotalEventsWt s c) (view_getTotalEventsWt s c)⟩
  | @getEventsPerCate s c i hs ih =>
    exact ⟨(congrArg Counts.flag (view_getEventsPerCate s c i)).trans ih.1,
      uncounted_of_view_eq ih.2 (extends_getEventsPerCate s c i) (view_getEventsPerCate s c i)⟩
  | @getEventsPerCateWt s c i hs ih =>
    exact ⟨(congrArg Counts.flag (view_getEventsPerCateWt s c i)).trans ih.1,
      uncounted_of_view_eq ih.2 (extends_getEventsPerCateWt s c i)
        (view_getEventsPerCateWt s c i)⟩
  | @printCutflow s w hs ih =>
    exact ⟨(congrArg Counts.flag (view_printCutflow s w)).trans ih.1,
      uncounted_of_view_eq ih.2 (extends_printCutflow s w) (view_printCutflow s w)⟩
  | @printCategorization s w hs ih =>
    exact ⟨(congrArg Counts.flag (view_printCategorization s w)).trans ih.1,
      uncounted_of_view_eq ih.2 (extends_printCategorization s w)
        (view_printCategorization s w)⟩
  | @saveCutflow s w hs ih =>
    exact ⟨(congrArg Counts.flag (view_saveCutflow s w)).trans ih.1,
      uncounted_of_view_eq ih.2 (extends_saveCutflow s w) (view_saveCutflow s w)⟩
  | @saveCategorization s w hs ih =>
    exact ⟨(congrArg Counts.flag (view_saveCategorization s w)).trans ih.1,
      uncounted_of_view_eq ih.2 (extends_saveCategorization s w)
        (view_saveCategorization s w)⟩

/-- The flag `recursiveCall` is clear in every reachable state. -/
theorem reachable_flag {s : DMEvtSelect} (h : Reachable s) : s.recursiveCall = false :=
  (reachable_flag_uncounted h).1

/-- Induction over the reachable states in terms of the counter values: a
property of the counter values that holds after construction and is kept by a
reset, by a category count and by a cut count (which only happens for a name
that is not registered, whose four cut counters are still 0) holds in every
reachable state; the flag is clear in every reachable state. -/
theorem reachableWith_view_induction {P : ℚ → Prop} {I : Counts → Prop}
    (h0 : I (view new))
    (hclear : ∀ v, I v → I (clearView registeredCuts v))
    (hcate : ∀ v k w, P w → I v → I (cateView v k w))
    (hcount : ∀ v c w b, P w → c ∉ registeredCuts →
      (v.pass c = 0 ∧ v.passWt c = 0 ∧ v.tot c = 0 ∧ v.totWt c = 0) → I v →
      I (countView v c w b))
    {s : DMEvtSelect} (h : ReachableWith P s) : I (view s) ∧ (view s).flag = false := by
  induction h with
  | construct => exact ⟨h0, by rw [view_new]; rfl⟩
  | @passesCut s t ev c w b hP hs hstep ih =>
    have hreg := reachable_registered (reachableWith_reachable hs)
    have hK := (reachable_flag_uncounted (reachableWith_reachable hs)).2
    rcases view_passesCut hstep ih.2 with ⟨-, -, hv⟩ | ⟨hx, hv⟩
    · rw [hv]; exact ih
    · rw [hv]
      refine ⟨hcount _ c w b hP ?_ (hK c hx) ih.1, ih.2⟩
      intro hmem
      rw [hreg.2.2 c hmem] at hx
      cases hx
  | @getCategoryNumber s ev c w hP hs ih =>
    rcases view_getCategoryNumber s ev c w with hv | ⟨k, hv⟩
    · rw [hv]; exact ih
    · rw [hv]; exact ⟨hcate _ k w hP ih.1, ih.2⟩
  | @clearCounters s hs ih =>
    have hreg := reachable_registered (reachableWith_reachable hs)
    rw [view_clearCounters, hreg.1]
    exact ⟨hclear _ ih.1, ih.2⟩
  | getPassingEvents c _ ih => rw [view_getPassingEvents]; exact ih
  | getPassingEventsWt c _ ih => rw [view_getPassingEventsWt]; exact ih
  | getTotalEvents c _ ih => rw [view_getTotalEvents]; exact ih
  | getTotalEventsWt c _ ih => rw [view_getTotalEventsWt]; exact ih
  | getEventsPerCate c i _ ih => rw [view_getEventsPerCate]; exact ih
  | getEventsPerCateWt c i _ ih => rw [view_getEventsPerCateWt]; exact ih
  | printCutflow w _ ih => rw [view_printCutflow]; exact ih
  | printCategorization w _ ih => rw [view_printCategorization]; exact ih
  | saveCutflow w _ ih => rw [view_saveCutflow]; exact ih
  | saveCategorization w _ ih => rw [view_saveCategorization]; exact ih

/-! ## Error handling and ranges -/

/-- A call of `passesCut` on a name that has no entry in `evtCountTot` and
contains none of the substrings of the dispatch, made with the flag clear,
returns `true` and counts the event as passing. -/
theorem passesCut_of_plain {s : DMEvtSelect} (ev : EventInfoAuxDyn) {c : String} (w : ℚ)
    (hx : s.evtCountTot.found c = false) (hf : s.recursiveCall = false)
    (h1 : Contains c "photonPt" = false) (h2 : Contains c "photonEta" = false)
    (h3 : Contains c "diphotonMass" = false) (h4 : Contains c "diphotonPt" = false)
    (h5 : Contains c "diphotonETMiss" = false) (h6 : Contains c "all" = false) :
    s.passesCut ev c w = Outcome.ret true (countEvent s c w true) := by
  unfold passesCut passesCutFuel passesCutBody
  simp [cutExists_of_not_found hx, h1, h2, h3, h4, h5, h6, countStep, hf]

/-- C11 (the code diverges): on a freshly constructed selector, for every event
and weight, `passesCut("looseCuts", w)` on the unregistered name "looseCuts"
returns `true` (and counts the event as tested and passing), not `false`. -/
theorem passesCut_unregistered_fresh_true (ev : EventInfoAuxDyn) (w : ℚ) :
    "looseCuts" ∉ registeredCuts ∧
      new.passesCut ev "looseCuts" w = Outcome.ret true (countEvent new "looseCuts" w true) := by
  refine ⟨by decide, ?_⟩
  exact passesCut_of_plain ev w (by decide) rfl (by decide) (by decide) (by decide) (by decide)
    (by decide) (by decide)

/-- C12 (the code diverges): on a freshly constructed selector the query
`getEventsPerCate("undefinedScheme", 0)` returns 0 without emitting anything (the
output is what it was, so no "Category not defined!" diagnostic), and after
`getCategoryNumber("undefinedScheme")` the query
`getEventsPerCate("undefinedScheme", -1)` returns 1, not 0. -/
theorem getEventsPerCate_unregistered_silent (ev : EventInfoAuxDyn) :
    (new.getEventsPerCate "undefinedScheme" 0).1 = 0 ∧
      (new.getEventsPerCate "undefinedScheme" 0).2.cout = new.cout ∧
      ((new.getCategoryNumber1 ev "undefinedScheme").2.getEventsPerCate
        "undefinedScheme" (-1)).1 = 1 := by
  have hq : new.cateExists "undefinedScheme" = (true, new) :=
    cateExists_of_not_found (by decide)
  have h1 : Contains "undefinedScheme" "inclusive" = false := by decide
  have h2 : Contains "undefinedScheme" "splitETMiss" = false := by decide
  have h3 : new.cateCount (Form "undefinedScheme" (-1)) = none := by decide
  have h4 : Form0 "undefinedScheme" ≠ Form "undefinedScheme" (-1) := by decide
  have h5 : new.cateCount (Form0 "undefinedScheme") = none := by decide
  refine ⟨by decide, by decide, ?_⟩
  simp [getCategoryNumber1, getCategoryNumber, getEventsPerCate, cateExists, hq, h1, h2, print,
    TMap.add, TMap.incr, TMap.set, TMap.val, TMap.found, h3, h4, h5, wrapInt_one_eq]

/-- The value of `currCate` at the final statement of `getCategoryNumber` (what
the method returns when the `if` is read as closed before `return currCate;`):
in every state reachable from construction, for every scheme with its declared
size `n` in `cateNamesAndSizes`, every event and every weight, it is the
sentinel -1 or an index `i` with `0 <= i < n`. -/
theorem getCategoryNumber_in_range (s : DMEvtSelect) (ev : EventInfoAuxDyn) (name : String)
    (n : Int) (w : ℚ) (hs : Reachable s) (hn : (name, n) ∈ s.cateNamesAndSizes) :
    (s.getCategoryNumber ev name w).1 = -1 ∨
      (0 ≤ (s.getCategoryNumber ev name w).1 ∧ (s.getCategoryNumber ev name w).1 < n) := by
  rw [(reachable_registered hs).2.1] at hn
  have hi : Contains "inclusive" "inclusive" = true := by decide
  have hsi : Contains "splitETMiss" "inclusive" = false := by decide
  have hss : Contains "splitETMiss" "splitETMiss" = true := by decide
  simp only [registeredCates, List.mem_cons, Prod.mk.injEq, List.mem_singleton,
    List.not_mem_nil, or_false] at hn
  unfold getCategoryNumber
  generalize s.cateExists _ = r
  obtain ⟨x, u⟩ := r
  rcases hn with ⟨rfl, rfl⟩ | ⟨rfl, rfl⟩
  · cases x <;> simp [hi]
  · cases x
    · simp
    · by_cases hm : 180 < ev.metref_final <;> simp [hsi, hss, hm]

/-- The two readings of the closing brace of `getCategoryNumber` update the
selector in the same way, and a value returned with the braces as they stand is
the value of `currCate`. -/
theorem getCategoryNumberAsWritten_agrees (s : DMEvtSelect) (ev : EventInfoAuxDyn)
    (name : String) (w : ℚ) :
    (s.getCategoryNumberAsWritten ev name w).2 = (s.getCategoryNumber ev name w).2 ∧
      ∀ v, (s.getCategoryNumberAsWritten ev name w).1 = some v →
        v = (s.getCategoryNumber ev name w).1 := by
  unfold getCategoryNumberAsWritten getCategoryNumber
  generalize s.cateExists name = r
  obtain ⟨x, u⟩ := r
  cases x <;> cases Contains name "inclusive" <;> cases Contains name "splitETMiss" <;>
    by_cases hm : 180 < ev.metref_final <;> simp [hm]

/-- C13 (the code diverges): with the braces of `getCategoryNumber` as they
stand, a valid category is computed but not returned.  On the freshly
constructed selector, for an event with `metref_final = 50` under "splitETMiss"
the category is 1 and for an event with `metref_final = 200` it is 0, and in
both cases control reaches the end of the function without a `return`; for
every state, event and weight the call on "splitETMiss" returns the sentinel -1
or returns nothing, never an index `i` with `0 <= i < 2`. -/
theorem getCategoryNumber_valid_category_not_returned :
    (new.getCategoryNumber evLowMet "splitETMiss" 1).1 = 1 ∧
    (new.getCategoryNumberAsWritten evLowMet "splitETMiss" 1).1 = none ∧
    (new.getCategoryNumber evHighMet "splitETMiss" 1).1 = 0 ∧
    (new.getCategoryNumberAsWritten evHighMet "splitETMiss" 1).1 = none ∧
    ∀ (s : DMEvtSelect) (ev : EventInfoAuxDyn) (w : ℚ),
      (s.getCategoryNumberAsWritten ev "splitETMiss" w).1 = some (-1) ∨
        (s.getCategoryNumberAsWritten ev "splitETMiss" w).1 = none := by
  have hsi : Contains "splitETMiss" "inclusive" = false := by decide
  have hss : Contains "splitETMiss" "splitETMiss" = true := by decide
  refine ⟨by decide, by decide, by decide, by decide, ?_⟩
  intro s ev w
  unfold getCategoryNumberAsWritten
  generalize s.cateExists "splitETMiss" = r
  obtain ⟨x, u⟩ := r
  cases x
  · simp
  · by_cases hm : 180 < ev.metref_final <;> simp [hsi, hss, hm]

/-! ## Counter invariants -/

/-- The state after `passesCut("looseCuts", w)` on the freshly constructed
selector is reachable with weights satisfying `P` when `P w` holds. -/
theorem reachableWith_looseCuts {P : ℚ → Prop} (w : ℚ) (hw : P w) :
    ReachableWith P (countEvent new "looseCuts" w true) :=
  ReachableWith.passesCut evHighMet "looseCuts" w true hw ReachableWith.construct
    (passesCut_of_plain evHighMet w (by decide) rfl (by decide) (by decide) (by decide)
      (by decide) (by decide) (by decide))

/-- C14: in every state reachable from construction by calls of `passesCut`,
`getCategoryNumber`, `clearCounters`, the queries and the reports in which every
weight is non-negative, for every cut name the pass count is at most the total
count and the weighted pass count is at most the weighted total count. -/
theorem pass_le_total_of_nonneg_weights (s : DMEvtSelect) (c : String)
    (h : ReachableWith (fun w => 0 ≤ w) s) :
    s.evtCountPass.val c ≤ s.evtCountTot.val c ∧
      s.evtCountPassWt.val c ≤ s.evtCountTotWt.val c := by
  have key := (reachableWith_view_induction
    (I := fun v => ∀ c, v.pass c ≤ v.tot c ∧ v.passWt c ≤ v.totWt c) ?_ ?_ ?_ ?_ h).1
  · exact key c
  · rw [view_new]
    intro k
    simp [clearView]
  · intro v _ k
    simp [clearView]
  · intro v k w _ hI
    exact hI
  · intro v k w b hw _ hz hI j
    have hw0 : (0 : ℚ) ≤ w := hw
    by_cases hj : j = k
    · subst hj
      obtain ⟨s1, s2, s3, s4⟩ := countView_same v j w b hz
      rw [s1, s2, s3, s4]
      cases b <;> simp [hw0]
    · obtain ⟨o1, o2, o3, o4⟩ := countView_other v w b hj
      rw [o1, o2, o3, o4]
      exact hI j

/-- Witness of C14: the state after one call `passesCut("looseCuts", 2.0)` on
the freshly constructed selector. -/
theorem pass_le_total_of_nonneg_weights_witness :
    ReachableWith (fun w => 0 ≤ w) (countEvent new "looseCuts" 2 true) ∧
      ((countEvent new "looseCuts" 2 true).evtCountPass.val "looseCuts"
          ≤ (countEvent new "looseCuts" 2 true).evtCountTot.val "looseCuts" ∧
        (countEvent new "looseCuts" 2 true).evtCountPassWt.val "looseCuts"
          ≤ (countEvent new "looseCuts" 2 true).evtCountTotWt.val "looseCuts") :=
  ⟨reachableWith_looseCuts 2 (by norm_num),
    pass_le_total_of_nonneg_weights _ "looseCuts" (reachableWith_looseCuts 2 (by norm_num))⟩

/-- In every reachable state the total counters of the registered cuts read 0,
both the ones `passesCut` maintains (`evtCountTot`, `evtCountTotWt`) and the
ones the reports read (`evtCountTotal`, `evtCountTotalWt`). -/
theorem reachable_totals_zero {s : DMEvtSelect} (h : Reachable s) :
    (∀ c ∈ registeredCuts, s.evtCountTot.val c = 0 ∧ s.evtCountTotWt.val c = 0) ∧
      ∀ k, s.evtCountTotal.val k = 0 ∧ s.evtCountTotalWt.val k = 0 := by
  refine (reachableWith_view_induction
    (I := fun v => (∀ c ∈ registeredCuts, v.tot c = 0 ∧ v.totWt c = 0) ∧
      ∀ k, v.total k = 0 ∧ v.totalWt k = 0) ?_ ?_ ?_ ?_ (reachable_reachableWith h)).1
  · rw [view_new]
    simp [clearView]
  · intro v hI
    refine ⟨fun c _ => ⟨rfl, rfl⟩, fun k => ⟨(hI.2 k).1, ?_⟩⟩
    simp [clearView, (hI.2 k).2]
  · intro v k w _ hI
    exact hI
  · intro v k w b _ hk _ hI
    refine ⟨fun c hc => ?_, hI.2⟩
    have hne : c ≠ k := fun e => hk (e ▸ hc)
    obtain ⟨-, -, o3, o4⟩ := countView_other v w b hne
    rw [o3, o4]
    exact hI.1 c hc

theorem rowsToks_eq_cutflowSpec (w : Bool) (s : DMEvtSelect) :
    ∀ l : List String,
      (∀ c ∈ l, s.evtCountTotal.val c = s.evtCountTot.val c ∧
        s.evtCountTotalWt.val c = s.evtCountTotWt.val c) →
      rowsToks w (view s) l = cutflowSpec w s l := by
  intro l
  induction l with
  | nil => intro _; rfl
  | cons c rest ih =>
    intro h
    obtain ⟨h1, h2⟩ := h c (List.mem_cons_self c rest)
    have hrest := ih (fun c' hc' => h c' (List.mem_cons_of_mem c hc'))
    show rowToks w (view s) c ++ rowsToks w (view s) rest = _
    rw [hrest]
    simp only [cutflowSpec, rowToks, view, h1, h2]

/-- The rows of the cut-flow reports in a reachable state.  The reports read
the pass counters from `evtCountPass` / `evtCountPassWt` and the totals from
`evtCountTotal` / `evtCountTotalWt` (`saveCutflow_toks`), not from the maps
`evtCountTot` / `evtCountTotWt` that `passesCut` updates; in a reachable state
all of these read 0 for the six registered cuts (`reachable_totals_zero`), so
the rows written coincide with the table `cutflowSpec`, one row per registered
cut in the order of `cutList`. -/
theorem cutflow_report_rows (s : DMEvtSelect) (weighted : Bool) (h : Reachable s) :
    s.cutList = registeredCuts ∧
      (s.saveCutflow weighted).1 = cutflowSpec weighted s registeredCuts ∧
      (s.printCutflow weighted).cout
        = s.cout ++ ([Tok.str "Printing Cutflow: ", Tok.endl]
            ++ cutflowSpec weighted s registeredCuts) := by
  have hreg := reachable_registered h
  obtain ⟨z1, z2⟩ := reachable_totals_zero h
  have hrows : rowsToks weighted (view s) registeredCuts
      = cutflowSpec weighted s registeredCuts := by
    apply rowsToks_eq_cutflowSpec
    intro c hc
    rw [(z2 c).1, (z2 c).2, (z1 c hc).1, (z1 c hc).2]
    exact ⟨rfl, rfl⟩
  refine ⟨hreg.1, ?_, ?_⟩
  · rw [saveCutflow_toks, hreg.1, hrows]
  · rw [printCutflow_cout, hreg.1, hrows]

/-- C17 (the code diverges): after one event with `metref_final = 200` has
been classified under "splitETMiss" on the freshly constructed selector, the
count and the weighted count of ("splitETMiss", 0) are 1, yet both
categorisation reports show 0 and 0 for the scheme: the cells are read under the
key "splitETMiss_2", and the weighted report reads the unweighted map while
the unweighted report reads the weighted one. -/
theorem categorization_report_diverges :
    afterHighMet.cateCount.val (Form "splitETMiss" 0) = 1 ∧
    afterHighMet.cateCountWt.val (Form "splitETMiss" 0) = 1 ∧
    (afterHighMet.saveCategorization false).1
      = [Tok.str "\t", Tok.str "inclusive", Tok.str " ", Tok.dbl 0, Tok.str " ", Tok.endl,
         Tok.str "\t", Tok.str "splitETMiss", Tok.str " ", Tok.dbl 0, Tok.str " ", Tok.dbl 0,
         Tok.str " ", Tok.endl] ∧
    (afterHighMet.saveCategorization true).1
      = [Tok.str "\t", Tok.str "inclusive", Tok.str " ", Tok.int 0, Tok.str " ", Tok.endl,
         Tok.str "\t", Tok.str "splitETMiss", Tok.str " ", Tok.int 0, Tok.str " ", Tok.int 0,
         Tok.str " ", Tok.endl] := by
  refine ⟨by decide, ?_, by decide, by decide⟩
  have hq : new.cateExists "splitETMiss" = (true, new) :=
    cateExists_of_not_found (by decide)
  have h1 : Contains "splitETMiss" "inclusive" = false := by decide
  have h2 : Contains "splitETMiss" "splitETMiss" = true := by decide
  have h3 : new.cateCountWt (Form "splitETMiss" 0) = none := by decide
  have h4 : (180 : ℚ) < evHighMet.metref_final := by norm_num [evHighMet]
  simp [afterHighMet, getCategoryNumber1, getCategoryNumber, hq, h1, h2, h4, TMap.add, TMap.set,
    TMap.val, h3]

/-- C18 (the code diverges): on the freshly constructed selector the query
`getTotalEvents("looseCuts")` inserts the entry "looseCuts" into `evtCountTot`,
and this changes a later call: `passesCut("looseCuts", w)` returns `true` on
the fresh selector and `false` after the query. -/
theorem getTotalEvents_mutates (ev : EventInfoAuxDyn) (w : ℚ) :
    new.evtCountTot "looseCuts" = none ∧
    (new.getTotalEvents "looseCuts").2.evtCountTot "looseCuts" = some 0 ∧
    new.passesCut ev "looseCuts" w = Outcome.ret true (countEvent new "looseCuts" w true) ∧
    (new.getTotalEvents "looseCuts").2.passesCut ev "looseCuts" w
      = Outcome.ret false ((new.getTotalEvents "looseCuts").2.print
          [Tok.str "DMEvtSelect: Cut not defined!", Tok.endl]) := by
  refine ⟨by decide, by decide, ?_, ?_⟩
  · exact passesCut_of_plain ev w (by decide) rfl (by decide) (by decide) (by decide)
      (by decide) (by decide) (by decide)
  · exact passesCut_of_found ev w (by decide)

/-- C19: in every state reachable from construction, when a call of
`passesCut` (on any name, registered or not, "allCuts" included) returns to its
caller, the flag `recursiveCall` is false. -/
theorem passesCut_returns_with_flag_clear (s : DMEvtSelect) (ev : EventInfoAuxDyn)
    (c : String) (w : ℚ) (b : Bool) (t : DMEvtSelect) (hs : Reachable s)
    (h : s.passesCut ev c w = Outcome.ret b t) : t.recursiveCall = false :=
  reachable_flag (Reachable.passesCut ev c w b hs h)

/-- Witness of C19: the call `passesCut("all")` on the freshly constructed
selector, which runs the aggregate branch. -/
theorem passesCut_returns_with_flag_clear_witness :
    Reachable new ∧ new.passesCut evHighMet "all" 1 = Outcome.ret false afterAll ∧
      afterAll.recursiveCall = false :=
  ⟨Reachable.construct, rfl,
    passesCut_returns_with_flag_clear new evHighMet "all" 1 false afterAll Reachable.construct rfl⟩

/-! ## The existence helpers and the guard -/

/-- C21: `cutExists(name)` returns true exactly when `name` has no entry in
`evtCountTot`, and `cateExists(name)` returns true exactly when the key
"name_0" has no entry in `cateCount`; each prints its "not defined" diagnostic
exactly when it returns false, that is exactly when the entry is present, and
prints nothing otherwise. -/
theorem exists_helpers_inverted (s : DMEvtSelect) (name : String) :
    ((s.cutExists name).1 = true ↔ s.evtCountTot name = none) ∧
    ((s.cutExists name).2.cout
      = if (s.cutExists name).1 = false then
          s.cout ++ [Tok.str "DMEvtSelect: Cut not defined!", Tok.endl]
        else s.cout) ∧
    ((s.cutExists name).1 = false ↔ ∃ v, s.evtCountTot name = some v) ∧
    ((s.cateExists name).1 = true ↔ s.cateCount (Form0 name) = none) ∧
    ((s.cateExists name).2.cout
      = if (s.cateExists name).1 = false then
          s.cout ++ [Tok.str "DMEvtSelect: Category not defined!", Tok.endl]
        else s.cout) ∧
    ((s.cateExists name).1 = false ↔ ∃ v, s.cateCount (Form0 name) = some v) := by
  refine ⟨?_, ?_, ?_, ?_, ?_, ?_⟩
  · cases h : s.evtCountTot name <;> simp [cutExists, TMap.found, h]
  · cases h : s.evtCountTot name <;> simp [cutExists, TMap.found, h, print]
  · cases h : s.evtCountTot name <;> simp [cutExists, TMap.found, h]
  · cases h : s.cateCount (Form0 name) <;> simp [cateExists, TMap.found, h]
  · cases h : s.cateCount (Form0 name) <;> simp [cateExists, TMap.found, h, print]
  · cases h : s.cateCount (Form0 name) <;> simp [cateExists, TMap.found, h]

/-- C24: in every state reachable from construction, for each of the six
registered cut names, every weight and every event, the name has an entry in
`evtCountTot` and `passesCut` returns `false` at the existence guard, leaving
every counter map (of every cut and of every category) and the flag as they
were; only the diagnostic is printed. -/
theorem passesCut_registered_returns_false (s : DMEvtSelect) (ev : EventInfoAuxDyn)
    (c : String) (w : ℚ) (hs : Reachable s) (hc : c ∈ registeredCuts) :
    (∃ v, s.evtCountTot c = some v) ∧
    ∃ t, s.passesCut ev c w = Outcome.ret false t ∧
      t.evtCountTot = s.evtCountTot ∧ t.evtCountTotWt = s.evtCountTotWt ∧
      t.evtCountPass = s.evtCountPass ∧ t.evtCountPassWt = s.evtCountPassWt ∧
      t.evtCountTotal = s.evtCountTotal ∧ t.evtCountTotalWt = s.evtCountTotalWt ∧
      t.cateCount = s.cateCount ∧ t.cateCountWt = s.cateCountWt ∧
      t.recursiveCall = s.recursiveCall ∧
      t.cout = s.cout ++ [Tok.str "DMEvtSelect: Cut not defined!", Tok.endl] := by
  have hf : s.evtCountTot.found c = true := (reachable_registered hs).2.2 c hc
  refine ⟨?_, _, passesCut_of_found ev w hf, rfl, rfl, rfl, rfl, rfl, rfl, rfl, rfl, rfl, rfl⟩
  unfold TMap.found at hf
  cases h : s.evtCountTot c with
  | none => rw [h] at hf; cases hf
  | some v => exact ⟨v, rfl⟩

/-- Witness of C24: the cut "diphotonMass" on the freshly constructed selector,
with an event on which the mass comparison holds. -/
theorem passesCut_registered_returns_false_witness :
    Reachable new ∧ "diphotonMass" ∈ registeredCuts ∧
    (∃ v, new.evtCountTot "diphotonMass" = some v) ∧
    ∃ t, new.passesCut evHighMet "diphotonMass" 1 = Outcome.ret false t ∧
      t.evtCountTot = new.evtCountTot ∧ t.evtCountTotWt = new.evtCountTotWt ∧
      t.evtCountPass = new.evtCountPass ∧ t.evtCountPassWt = new.evtCountPassWt ∧
      t.evtCountTotal = new.evtCountTotal ∧ t.evtCountTotalWt = new.evtCountTotalWt ∧
      t.cateCount = new.cateCount ∧ t.cateCountWt = new.cateCountWt ∧
      t.recursiveCall = new.recursiveCall ∧
      t.cout = new.cout ++ [Tok.str "DMEvtSelect: Cut not defined!", Tok.endl] :=
  ⟨Reachable.construct, by decide,
    passesCut_registered_returns_false new evHighMet "diphotonMass" 1 Reachable.construct
      (by decide)⟩

/-! ## Every call of `passesCut` returns a value -/

theorem evtCountTot_of_quiet {s u : DMEvtSelect} (h : Quiet s u) :
    u.evtCountTot = s.evtCountTot := by
  unfold Quiet at h
  rw [h]

/-- The loop of the aggregate branch returns when every name of the list
without "all" has an entry in `evtCountTot`: each nested call stops at the
existence guard. -/
theorem allCutsLoop_returns (ev : EventInfoAuxDyn) :
    ∀ (l : List String) (s : DMEvtSelect) (p : Bool),
      (∀ c ∈ l, Contains c "all" = false → s.evtCountTot.found c = true) →
      ∃ b t, allCutsLoop (fun t c => passesCutFuel 1 t ev c 1) l s p = Outcome.ret b t := by
  intro l
  induction l with
  | nil => intro s p _; exact ⟨p, s, rfl⟩
  | cons c rest ih =>
    intro s p h
    unfold allCutsLoop
    cases hc : Contains c "all"
    · have hf := h c (List.mem_cons_self c rest) hc
      simp only [Bool.false_eq_true, if_false, passesCutFuel_of_found 0 ev 1 hf]
      exact ih _ _ (fun c' hc' ha => h c' (List.mem_cons_of_mem c hc') ha)
    · simp only [if_true]
      exact ih s p (fun c' hc' ha => h c' (List.mem_cons_of_mem c hc') ha)

/-- In a state with the constructor's registries and the flag clear, every call
of `passesCut` returns a value. -/
theorem passesCut_returns_of_registered {s : DMEvtSelect} (ev : EventInfoAuxDyn) (c : String)
    (w : ℚ) (hreg : Registered s) (hflag : s.recursiveCall = false) :
    ∃ b t, s.passesCut ev c w = Outcome.ret b t := by
  cases hx : s.evtCountTot.found c
  · have hstep : ∀ o : Outcome, (∃ p u, o = Outcome.ret p u ∧ u.recursiveCall = false) →
        ∃ b t, countStep c w o = Outcome.ret b t := by
      rintro o ⟨p, u, rfl, hu⟩
      exact ⟨p, countEvent u c w p, by simp [countStep, hu]⟩
    unfold passesCut passesCutFuel passesCutBody
    rw [cutExists_of_not_found hx]
    simp only [Bool.not_true, Bool.false_eq_true, if_false]
    apply hstep
    split_ifs
    any_goals exact ⟨_, s, rfl, hflag⟩
    unfold allCutsBranch
    obtain ⟨b, t, hl⟩ := allCutsLoop_returns ev s.cutList { s with recursiveCall := true } true
      (fun c' hc' _ => hreg.2.2 c' (hreg.1 ▸ hc'))
    rw [hl]
    exact ⟨b, { t with recursiveCall := false }, rfl, rfl⟩
  · exact ⟨false, _, passesCut_of_found ev w hx⟩

/-- C25: in every state reachable from construction, every call of `passesCut`
(on any name) returns a value, so control never reaches the end of the function
without a `return`; and every nested call that the aggregate branch can make,
that is on a name of `cutList` without "all" in a state that differs from the
current one only in the flag and the output, returns `false` at the existence
guard. -/
theorem passesCut_never_falls_through (s : DMEvtSelect) (ev : EventInfoAuxDyn) (c : String)
    (w : ℚ) (hs : Reachable s) :
    (∃ b t, s.passesCut ev c w = Outcome.ret b t) ∧
    s.passesCut ev c w ≠ Outcome.undef ∧
    ∀ u, Quiet s u → ∀ n ∈ s.cutList, Contains n "all" = false →
      passesCutFuel 1 u ev n 1
        = Outcome.ret false (u.print [Tok.str "DMEvtSelect: Cut not defined!", Tok.endl]) := by
  have hreg := reachable_registered hs
  obtain ⟨b, t, h⟩ := passesCut_returns_of_registered ev c w hreg (reachable_flag hs)
  refine ⟨⟨b, t, h⟩, by rw [h]; simp, ?_⟩
  intro u hu n hn _
  apply passesCutFuel_of_found 0 ev 1
  rw [evtCountTot_of_quiet hu]
  exact hreg.2.2 n (hreg.1 ▸ hn)

/-- Witness of C25: the call `passesCut("all")` on the freshly constructed
selector, which makes the five nested calls. -/
theorem passesCut_never_falls_through_witness :
    Reachable new ∧
    (∃ b t, new.passesCut evHighMet "all" 1 = Outcome.ret b t) ∧
    new.passesCut evHighMet "all" 1 ≠ Outcome.undef ∧
    ∀ u, Quiet new u → ∀ n ∈ new.cutList, Contains n "all" = false →
      passesCutFuel 1 u evHighMet n 1
        = Outcome.ret false (u.print [Tok.str "DMEvtSelect: Cut not defined!", Tok.endl]) :=
  ⟨Reachable.construct, passesCut_never_falls_through new evHighMet "all" 1 Reachable.construct⟩

/-! ## The substring dispatch -/

/-- What `passesCut` does once the existence guard is passed with the flag
clear, for a name that contains "photonPt": the first branch of the dispatch is
taken, whatever else the name contains. -/
theorem passesCut_dispatch_photonPt {s : DMEvtSelect} (ev : EventInfoAuxDyn) {c : String}
    (w : ℚ) (hx : s.evtCountTot.found c = false) (hf : s.recursiveCall = false)
    (h1 : Contains c "photonPt" = true) :
    s.passesCut ev c w = Outcome.ret (photonPtCut ev) (countEvent s c w (photonPtCut ev)) := by
  unfold passesCut passesCutFuel passesCutBody
  simp [cutExists_of_not_found hx, h1, countStep, hf]

/-- The dispatch for the other four atomic names, once the existence guard is
passed with the flag clear: each selects the comparison written under its own
comment. -/
theorem passesCut_dispatch_others (s : DMEvtSelect) (ev : EventInfoAuxDyn) (w : ℚ)
    (hf : s.recursiveCall = false) :
    (s.evtCountTot.found "photonPt" = false →
      s.passesCut ev "photonPt" w
        = Outcome.ret (photonPtCut ev) (countEvent s "photonPt" w (photonPtCut ev))) ∧
    (s.evtCountTot.found "photonEta" = false →
      s.passesCut ev "photonEta" w
        = Outcome.ret (photonEtaCut ev) (countEvent s "photonEta" w (photonEtaCut ev))) ∧
    (s.evtCountTot.found "diphotonMass" = false →
      s.passesCut ev "diphotonMass" w
        = Outcome.ret (diphotonMassCut ev)
            (countEvent s "diphotonMass" w (diphotonMassCut ev))) ∧
    (s.evtCountTot.found "diphotonETMiss" = false →
      s.passesCut ev "diphotonETMiss" w
        = Outcome.ret (diphotonETMissCut ev)
            (countEvent s "diphotonETMiss" w (diphotonETMissCut ev))) := by
  have a1 : Contains "photonPt" "photonPt" = true := by decide
  have b1 : Contains "photonEta" "photonPt" = false := by decide
  have b2 : Contains "photonEta" "photonEta" = true := by decide
  have c1 : Contains "diphotonMass" "photonPt" = false := by decide
  have c2 : Contains "diphotonMass" "photonEta" = false := by decide
  have c3 : Contains "diphotonMass" "diphotonMass" = true := by decide
  have d1 : Contains "diphotonETMiss" "photonPt" = false := by decide
  have d2 : Contains "diphotonETMiss" "photonEta" = false := by decide
  have d3 : Contains "diphotonETMiss" "diphotonMass" = false := by decide
  have d4 : Contains "diphotonETMiss" "diphotonPt" = false := by decide
  have d5 : Contains "diphotonETMiss" "diphotonETMiss" = true := by decide
  refine ⟨fun hx => passesCut_dispatch_photonPt ev w hx hf a1, ?_, ?_, ?_⟩
  · intro hx
    unfold passesCut passesCutFuel passesCutBody
    simp [cutExists_of_not_found hx, b1, b2, countStep, hf]
  · intro hx
    unfold passesCut passesCutFuel passesCutBody
    simp [cutExists_of_not_found hx, c1, c2, c3, countStep, hf]
  · intro hx
    unfold passesCut passesCutFuel passesCutBody
    simp [cutExists_of_not_found hx, d1, d2, d3, d4, d5, countStep, hf]

/-- The name "diphotonPt" contains "photonPt", so past the existence guard the
dispatch of `passesCut` takes the photon pT branch for it.  On the constructed
selector with its counter maps cleared (no entry for "diphotonPt", flag clear;
a state that no sequence of calls reaches), `passesCut("diphotonPt", 1.0)`
returns `false` for an event with `pt_yy = 130` whose photon pT ratios are too
small, and `true` for an event with `pt_yy = 50` whose ratios are large enough;
on the freshly constructed selector the unregistered name "diphotonPt_loose" is
evaluated with the photon pT ratios in the same way. -/
theorem diphotonPt_dispatches_to_photonPt :
    Contains "diphotonPt" "photonPt" = true ∧
    diphotonPtCut evLowRatio = true ∧ photonPtCut evLowRatio = false ∧
    new.clearMaps.passesCut evLowRatio "diphotonPt" 1
      = Outcome.ret false (countEvent new.clearMaps "diphotonPt" 1 false) ∧
    diphotonPtCut evLowPt = false ∧ photonPtCut evLowPt = true ∧
    new.clearMaps.passesCut evLowPt "diphotonPt" 1
      = Outcome.ret true (countEvent new.clearMaps "diphotonPt" 1 true) ∧
    new.passesCut evLowRatio "diphotonPt_loose" 1
      = Outcome.ret false (countEvent new "diphotonPt_loose" 1 false) := by
  have hc : Contains "diphotonPt" "photonPt" = true := by decide
  have hl : Contains "diphotonPt_loose" "photonPt" = true := by decide
  have r1 : diphotonPtCut evLowRatio = true := by norm_num [diphotonPtCut, evLowRatio]
  have r2 : photonPtCut evLowRatio = false := by norm_num [photonPtCut, ratioGt, evLowRatio]
  have p1 : diphotonPtCut evLowPt = false := by norm_num [diphotonPtCut, evLowPt]
  have p2 : photonPtCut evLowPt = true := by norm_num [photonPtCut, ratioGt, evLowPt]
  have e1 := passesCut_dispatch_photonPt (s := new.clearMaps) evLowRatio (c := "diphotonPt") 1
    rfl rfl hc
  have e2 := passesCut_dispatch_photonPt (s := new.clearMaps) evLowPt (c := "diphotonPt") 1
    rfl rfl hc
  have e3 := passesCut_dispatch_photonPt (s := new) evLowRatio (c := "diphotonPt_loose") 1
    (by decide) rfl hl
  rw [r2] at e1 e3
  rw [p2] at e2
  exact ⟨hc, r1, r2, e1, p1, p2, e2, e3⟩

end DMEvtSelect

/-! ## The event loop of `DMMassPoints::createNewMassPoints` -/

namespace DMMassPoints

open DMEvtSelect

/-- With the selector as it is, the loop body keeps no event: in every
reachable selector state `passesCut("allCuts")` returns `false`, so the pass
ends at a `continue` with the outputs untouched. -/
theorem createNewMassPointsEvent_skips (sel : DMEvtSelect) (mp : MassPoints)
    (ev : EventInfoAuxDyn) (sampleName cateScheme : String) (isWeighted : Bool) (evtWeight : ℚ)
    (hs : Reachable sel) :
    ∃ t, createNewMassPointsEvent sel mp ev sampleName cateScheme isWeighted evtWeight
      = some (t, mp) ∧ Reachable t := by
  have hall : ∀ u : DMEvtSelect, Reachable u →
      u.passesCut ev "allCuts" evtWeight = Outcome.ret false
        (u.print [Tok.str "DMEvtSelect: Cut not defined!", Tok.endl]) := fun u hu =>
    passesCut_of_found ev evtWeight ((reachable_registered hu).2.2 "allCuts" (by decide))
  unfold createNewMassPointsEvent looseSelection
  by_cases hn : sampleName = "gg_gjet"
  · obtain ⟨b, t, hb⟩ := passesCut_returns_of_registered ev "looseCuts" evtWeight
      (reachable_registered hs) (reachable_flag hs)
    have ht : Reachable t := Reachable.passesCut ev "looseCuts" evtWeight b hs hb
    simp only [hn, if_true, hb]
    cases b
    · exact ⟨t, rfl, ht⟩
    · simp only [Bool.not_true, hall t ht, Bool.not_false, if_true]
      exact ⟨_, rfl, Reachable.passesCut ev "allCuts" evtWeight false ht (hall t ht)⟩
  · simp only [hn, if_false, hall sel hs, Bool.not_false, if_true]
    exact ⟨_, rfl, Reachable.passesCut ev "allCuts" evtWeight false hs (hall sel hs)⟩

/-- The block that saves the categories, taken on its own: category 0 is a
valid index (the scheme "inclusive" has one category and
`getCategoryNumber("inclusive")` gives 0 on the constructed selector), but the
block tests `currCate > 0`, so for the category 0 it leaves every dataset and
every mass file as it was, for weighted and unweighted samples alike, while for
the category 1 it appends the value of `m_yy` to the dataset and the file of
category 1.  (In the loop the block is not reached:
`createNewMassPointsEvent_skips`.) -/
theorem saveCategory_skips_category_zero :
    getNCategories new "inclusive" = 1 ∧
    (new.getCategoryNumber1 evHighMet "inclusive").1 = 0 ∧
    (∀ (mp : MassPoints) (ev : EventInfoAuxDyn) (isWeighted : Bool) (w : ℚ),
      saveCategory mp ev isWeighted w 0 = mp) ∧
    (saveCategory emptyMassPoints evHighMet false 1 1).cateData 1 = [(125, none)] ∧
    (saveCategory emptyMassPoints evHighMet false 1 1).massFiles 1 = [Tok.dbl 125, Tok.endl] := by
  refine ⟨by decide, by decide, ?_, ?_, ?_⟩
  · intro mp ev isWeighted w
    simp [saveCategory]
  · simp [saveCategory, emptyMassPoints, evHighMet]
  · simp [saveCategory, emptyMassPoints, evHighMet]

end DMMassPoints

end HggDM
